import Mathlib

/-!
Verification of the netbox-provisioner backend core against its
natural-language specification.

The definitions below are a shallow embedding of the Rust sources:

* `src/backend/src/device/ros/mod.rs` — target-configuration synthesizer,
  `GapFinder` / `GapIterator` (IP-range gap finding for DHCP pools);
* `src/backend/src/device/ros/l2/mod.rs` — `L2Setup` plane synthesizer;
* `src/backend/src/topology/access/cable.rs` and `connections.rs` —
  cable-path resolver (`walk_cable`, `CablePath::far_port`).

IPv4 addresses are embedded as natural numbers below `2^32`; the `u32`
saturating arithmetic of the source is made explicit.  The Rust
`BTreeMap<V, i32>` backing `GapFinder` is embedded as an association list
strictly sorted by key (entries with value `0` are kept, as in the source).
-/

namespace NetboxProvisioner

/-! ## GapFinder (src/backend/src/device/ros/mod.rs, lines 683-767)

`GapFinder { reserved_chunks: BTreeMap<V, i32> }` is embedded as a
key-sorted association list `DeltaMap`.  `addDelta` mirrors
`*self.reserved_chunks.entry(k).or_insert(0) += d`. -/

abbrev DeltaMap := List (Nat × Int)

def addDelta (k : Nat) (d : Int) : DeltaMap → DeltaMap
  | [] => [(k, d)]
  | (k0, d0) :: rest =>
    if k < k0 then (k, d) :: (k0, d0) :: rest
    else if k = k0 then (k0, d0 + d) :: rest
    else (k0, d0) :: addDelta k d rest

namespace GapFinder

/-- `GapFinder::reserve`: `+1` at the chunk start, `-1` at the chunk end. -/
def reserve (m : DeltaMap) (chunk : Nat × Nat) : DeltaMap :=
  addDelta chunk.2 (-1) (addDelta chunk.1 1 m)

/-- `Ord::clamp(start, end)` of the source, for `lo ≤ hi`. -/
def clampN (x lo hi : Nat) : Nat := max lo (min x hi)

/-- `GapIterator::next`, unrolled to the full emitted sequence: walk the
sorted boundary entries, keep the running reserved-depth counter `cur`,
emit `(last, key)` whenever the depth is `≤ 0` and the clamped key moved
past `last`; after the last boundary emit the remainder up to `hi`. -/
def gapsGo : DeltaMap → Int → Nat → Nat → Nat → List (Nat × Nat)
  | [], cur, last, _lo, hi =>
    if cur ≤ 0 ∧ last < hi then [(last, hi)] else []
  | (k, inc) :: rest, cur, last, lo, hi =>
    let ck := clampN k lo hi
    if cur ≤ 0 ∧ last < ck then
      (last, ck) :: gapsGo rest (cur + inc) ck lo hi
    else
      gapsGo rest (cur + inc) ck lo hi

/-- `GapFinder::gaps`: iterator state starts at
`current_value = 0, last_key = start`. -/
def gaps (m : DeltaMap) (window : Nat × Nat) : List (Nat × Nat) :=
  gapsGo m 0 window.1 window.1 window.2

/-! IPv4 instance (lines 708-721).  Addresses are `Nat` values `< 2^32`;
`saturating_add`/`saturating_sub` of `u32` made explicit. -/

def u32Max : Nat := 4294967295

def satAdd1 (x : Nat) : Nat := min (x + 1) u32Max

def satSub1 (x : Nat) : Nat := x - 1

/-- `GapFinder::<Ipv4Addr>::reserve_ipv4`: a point reservation is the
range `[ip-1, ip+1)` (saturating). -/
def reserve_ipv4 (m : DeltaMap) (ip : Nat) : DeltaMap :=
  reserve m (satSub1 ip, satAdd1 ip)

/-- `reserve_ipv4_range`: widen by one on each side (saturating). -/
def reserve_ipv4_range (m : DeltaMap) (r : Nat × Nat) : DeltaMap :=
  reserve m (satSub1 r.1, satAdd1 r.2)

end GapFinder

/-- `ipnet::Ipv4Net`: an address plus a prefix length. -/
structure Ipv4Net where
  addr : Nat
  len : Nat

/-- `Ipv4Net::network()`: clear the host bits. -/
def Ipv4Net.network (n : Ipv4Net) : Nat :=
  n.addr - n.addr % 2 ^ (32 - n.len)

/-- `Ipv4Net::broadcast()`: network plus all-ones host part. -/
def Ipv4Net.broadcast (n : Ipv4Net) : Nat :=
  n.network + (2 ^ (32 - n.len) - 1)

namespace GapFinder

/-- `reserve_ipv4_net`: reserve `network()..broadcast()` as a range. -/
def reserve_ipv4_net (m : DeltaMap) (n : Ipv4Net) : DeltaMap :=
  reserve_ipv4_range m (n.network, n.broadcast)

/-- `find_gaps_ipv4`: gaps within `network+1 .. broadcast-1` (saturating). -/
def find_gaps_ipv4 (m : DeltaMap) (n : Ipv4Net) : List (Nat × Nat) :=
  gaps m (satAdd1 n.network, satSub1 n.broadcast)

/-- Building the reservation map from a list of reserved chunks, in order. -/
def buildMap (resv : List (Nat × Nat)) : DeltaMap :=
  resv.foldl reserve []

/-- The emitted free ranges for a reservation list and a window. -/
def gapsOf (resv : List (Nat × Nat)) (w : Nat × Nat) : List (Nat × Nat) :=
  gaps (buildMap resv) w

end GapFinder

/-! Concrete IPv4 constants for the 172.16.1.0/24 scenarios. -/

def ip172_16_1 (x : Nat) : Nat := 2886729984 + x

example : (Ipv4Net.mk (ip172_16_1 0) 24).network = ip172_16_1 0 := by decide
example : (Ipv4Net.mk (ip172_16_1 0) 24).broadcast = ip172_16_1 255 := by decide

/-! ### Theory of the gap finder -/

namespace GapFinder

/-- The `BTreeMap` invariant: keys strictly ascending. -/
def SortedMap (m : DeltaMap) : Prop := m.Pairwise (fun a b => a.1 < b.1)

/-- Sum of all deltas at keys `≤ x`: the reserved depth at point `x`. -/
def sumUpto (m : DeltaMap) (x : Nat) : Int :=
  ((m.filter (fun p => p.1 ≤ x)).map Prod.snd).sum

/-- Number of reserved intervals of `resv` containing the point `x`. -/
def depth (resv : List (Nat × Nat)) (x : Nat) : Nat :=
  (resv.filter (fun r => r.1 ≤ x ∧ x < r.2)).length

theorem sumUpto_nil (x : Nat) : sumUpto [] x = 0 := rfl

theorem sumUpto_cons (k0 : Nat) (d0 : Int) (tl : DeltaMap) (x : Nat) :
    sumUpto ((k0, d0) :: tl) x = (if k0 ≤ x then d0 else 0) + sumUpto tl x := by
  by_cases h : k0 ≤ x
  · simp [sumUpto, List.filter_cons, h]
  · simp [sumUpto, List.filter_cons, h]

theorem mem_keys_addDelta {k : Nat} {d : Int} {m : DeltaMap} {p : Nat × Int}
    (h : p ∈ addDelta k d m) : p.1 = k ∨ p.1 ∈ m.map Prod.fst := by
  induction m with
  | nil =>
    simp only [addDelta, List.mem_singleton] at h
    subst h; left; rfl
  | cons hd tl ih =>
    obtain ⟨k0, d0⟩ := hd
    simp only [addDelta] at h
    split at h
    · simp only [List.mem_cons] at h
      rcases h with h | h | h
      · subst h; left; rfl
      · subst h; right; simp
      · right; simp only [List.map_cons, List.mem_cons]
        right; exact List.mem_map_of_mem Prod.fst h
    · split at h
      · simp only [List.mem_cons] at h
        rcases h with h | h
        · subst h; right; simp
        · right; simp only [List.map_cons, List.mem_cons]
          right; exact List.mem_map_of_mem Prod.fst h
      · simp only [List.mem_cons] at h
        rcases h with h | h
        · subst h; right; simp
        · rcases ih h with h1 | h1
          · left; exact h1
          · right; simp only [List.map_cons, List.mem_cons]; right; exact h1

theorem sortedMap_addDelta {k : Nat} {d : Int} {m : DeltaMap}
    (h : SortedMap m) : SortedMap (addDelta k d m) := by
  induction m with
  | nil => simp [addDelta, SortedMap]
  | cons hd tl ih =>
    obtain ⟨k0, d0⟩ := hd
    rw [SortedMap, List.pairwise_cons] at h
    obtain ⟨hhd, htl⟩ := h
    simp only [addDelta]
    split
    · rename_i hlt
      refine List.Pairwise.cons ?_ (List.Pairwise.cons hhd htl)
      intro p hp
      simp only [List.mem_cons] at hp
      rcases hp with hp | hp
      · subst hp; exact hlt
      · exact lt_trans hlt (hhd p hp)
    · split
      · rename_i heq
        exact List.Pairwise.cons hhd htl
      · rename_i hlt heq
        refine List.Pairwise.cons ?_ (ih htl)
        intro p hp
        rcases mem_keys_addDelta hp with h1 | h1
        · rw [h1]; omega
        · rcases List.mem_map.mp h1 with ⟨q, hq, hq1⟩
          rw [← hq1]; exact hhd q hq

theorem sumUpto_addDelta (k : Nat) (d : Int) (m : DeltaMap) (x : Nat) :
    sumUpto (addDelta k d m) x = sumUpto m x + if k ≤ x then d else 0 := by
  induction m with
  | nil =>
    rw [show addDelta k d [] = [(k, d)] from rfl, sumUpto_cons, sumUpto_nil]
    ring
  | cons hd tl ih =>
    obtain ⟨k0, d0⟩ := hd
    simp only [addDelta]
    split
    · rw [sumUpto_cons, sumUpto_cons]
      ring
    · split
      · rename_i heq
        subst heq
        rw [sumUpto_cons, sumUpto_cons]
        split_ifs <;> ring
      · rw [sumUpto_cons, sumUpto_cons, ih]
        ring

theorem sortedMap_reserve {m : DeltaMap} (h : SortedMap m) (r : Nat × Nat) :
    SortedMap (reserve m r) :=
  sortedMap_addDelta (sortedMap_addDelta h)

theorem sumUpto_reserve (m : DeltaMap) (r : Nat × Nat) (x : Nat) :
    sumUpto (reserve m r) x =
      sumUpto m x + ((if r.1 ≤ x then 1 else 0) - if r.2 ≤ x then 1 else 0) := by
  unfold reserve
  rw [sumUpto_addDelta, sumUpto_addDelta]
  split <;> split <;> ring

theorem sortedMap_foldl_reserve (L : List (Nat × Nat)) :
    ∀ m, SortedMap m → SortedMap (L.foldl reserve m) := by
  induction L with
  | nil => intro m h; exact h
  | cons r rest ih =>
    intro m h
    exact ih (reserve m r) (sortedMap_reserve h r)

theorem sortedMap_buildMap (resv : List (Nat × Nat)) : SortedMap (buildMap resv) :=
  sortedMap_foldl_reserve resv [] (by simp [SortedMap])

theorem sumUpto_foldl_reserve (L : List (Nat × Nat)) (hL : ∀ r ∈ L, r.1 ≤ r.2)
    (x : Nat) : ∀ m, sumUpto (L.foldl reserve m) x = sumUpto m x + depth L x := by
  induction L with
  | nil => intro m; simp [depth]
  | cons r rest ih =>
    intro m
    have hr : r.1 ≤ r.2 := hL r (List.mem_cons_self r rest)
    have hrest : ∀ q ∈ rest, q.1 ≤ q.2 := fun q hq => hL q (List.mem_cons_of_mem r hq)
    simp only [List.foldl_cons]
    rw [ih hrest, sumUpto_reserve]
    have : ((if r.1 ≤ x then (1 : Int) else 0) - if r.2 ≤ x then 1 else 0)
        = if r.1 ≤ x ∧ x < r.2 then 1 else 0 := by
      split_ifs <;> omega
    rw [this]
    have hdep : (depth (r :: rest) x : Int)
        = (if r.1 ≤ x ∧ x < r.2 then 1 else 0) + depth rest x := by
      simp only [depth, List.filter_cons]
      by_cases h : r.1 ≤ x ∧ x < r.2
      · simp only [h, and_self, decide_True, if_true, List.length_cons]
        push_cast
        ring
      · simp [h]
    rw [hdep]; ring

theorem sumUpto_buildMap (resv : List (Nat × Nat)) (h : ∀ r ∈ resv, r.1 ≤ r.2)
    (x : Nat) : sumUpto (buildMap resv) x = depth resv x := by
  unfold buildMap
  rw [sumUpto_foldl_reserve resv h x []]
  simp [sumUpto]

theorem sumUpto_eq_zero_of_gt {m : DeltaMap} {x : Nat}
    (h : ∀ p ∈ m, x < p.1) : sumUpto m x = 0 := by
  induction m with
  | nil => rfl
  | cons hd tl ih =>
    obtain ⟨k0, d0⟩ := hd
    rw [sumUpto_cons]
    have hk : ¬k0 ≤ x := by
      have := h (k0, d0) (List.mem_cons_self _ _)
      omega
    rw [if_neg hk, ih fun p hp => h p (List.mem_cons_of_mem _ hp)]
    ring

theorem clampN_mono {a b lo hi : Nat} (h : a ≤ b) :
    clampN a lo hi ≤ clampN b lo hi :=
  max_le_max (le_refl lo) (min_le_min h (le_refl hi))

theorem clampN_le {x lo hi : Nat} (h : lo ≤ hi) : clampN x lo hi ≤ hi :=
  max_le h (min_le_right x hi)

theorem le_clampN (x lo hi : Nat) : lo ≤ clampN x lo hi := le_max_left lo _

/-- Suffix relation between a `gapsGo` run and the same run after stepping
one boundary: the recursive output is always a suffix. -/
theorem mem_gapsGo_cons {k : Nat} {inc : Int} {rest : DeltaMap}
    {cur : Int} {last lo hi : Nat} {g : Nat × Nat}
    (h : g ∈ gapsGo rest (cur + inc) (clampN k lo hi) lo hi) :
    g ∈ gapsGo ((k, inc) :: rest) cur last lo hi := by
  simp only [gapsGo]
  split
  · exact List.mem_cons_of_mem _ h
  · exact h

/-- Coverage: every point of the window at reserved depth `≤ 0` lies in an
emitted free range. -/
theorem gapsGo_cover :
    ∀ (m : DeltaMap) (cur : Int) (last lo hi : Nat),
      SortedMap m → lo ≤ last →
      ∀ x, last ≤ x → x < hi → cur + sumUpto m x ≤ 0 →
      ∃ g ∈ gapsGo m cur last lo hi, g.1 ≤ x ∧ x < g.2 := by
  intro m
  induction m with
  | nil =>
    intro cur last lo hi _ _ x hlx hxh hcur
    rw [sumUpto_nil] at hcur
    refine ⟨(last, hi), ?_, hlx, hxh⟩
    simp only [gapsGo]
    rw [if_pos ⟨by omega, by omega⟩]
    exact List.mem_singleton.mpr rfl
  | cons hd tl ih =>
    intro cur last lo hi hsort hlo x hlx hxh hcur
    obtain ⟨k, inc⟩ := hd
    rw [SortedMap, List.pairwise_cons] at hsort
    obtain ⟨hhd, htl⟩ := hsort
    by_cases hck : x < clampN k lo hi
    · -- the point lies strictly before the clamped boundary: the gap
      -- `(last, clamp k)` is emitted and contains it
      have hkx : x < k := by
        have h1 : lo ≤ x := le_trans hlo hlx
        have := hck
        unfold clampN at this
        omega
      have hz : sumUpto ((k, inc) :: tl) x = 0 := by
        apply sumUpto_eq_zero_of_gt
        intro p hp
        simp only [List.mem_cons] at hp
        rcases hp with hp | hp
        · subst hp; exact hkx
        · exact lt_trans hkx (hhd p hp)
      rw [hz] at hcur
      refine ⟨(last, clampN k lo hi), ?_, hlx, hck⟩
      simp only [gapsGo]
      rw [if_pos ⟨by omega, by omega⟩]
      exact List.mem_cons_self _ _
    · -- the boundary is at or before the point: step past it
      push_neg at hck
      have hkx : k ≤ x := by
        unfold clampN at hck
        omega
      have hstep : (cur + inc) + sumUpto tl x ≤ 0 := by
        rw [sumUpto_cons, if_pos hkx] at hcur
        omega
      obtain ⟨g, hg, hgx⟩ :=
        ih (cur + inc) (clampN k lo hi) lo hi htl (le_clampN k lo hi) x hck hxh hstep
      exact ⟨g, mem_gapsGo_cons hg, hgx⟩

/-- Shape invariant of the emitted ranges: chained, nonempty, inside
`[lo, hi]`. -/
inductive Chained : Nat → Nat → List (Nat × Nat) → Prop
  | nil (lo hi : Nat) : Chained lo hi []
  | cons {lo hi a b : Nat} {l : List (Nat × Nat)} :
      lo ≤ a → a < b → b ≤ hi → Chained b hi l → Chained lo hi ((a, b) :: l)

theorem Chained.mono {lo lo' hi : Nat} {l : List (Nat × Nat)}
    (h : lo' ≤ lo) : Chained lo hi l → Chained lo' hi l := by
  intro hc
  cases hc with
  | nil => exact Chained.nil lo' hi
  | cons h1 h2 h3 h4 => exact Chained.cons (le_trans h h1) h2 h3 h4

theorem Chained.start_le {lo hi : Nat} {l : List (Nat × Nat)}
    (h : Chained lo hi l) : ∀ g ∈ l, lo ≤ g.1 := by
  induction h with
  | nil => intro g hg; cases hg
  | cons h1 h2 h3 _ ih =>
    intro g hg
    simp only [List.mem_cons] at hg
    rcases hg with hg | hg
    · subst hg; exact h1
    · have := ih g hg; omega

theorem Chained.bounds {lo hi : Nat} {l : List (Nat × Nat)}
    (h : Chained lo hi l) : ∀ g ∈ l, lo ≤ g.1 ∧ g.1 < g.2 ∧ g.2 ≤ hi := by
  induction h with
  | nil => intro g hg; cases hg
  | cons h1 h2 h3 h4 ih =>
    intro g hg
    simp only [List.mem_cons] at hg
    rcases hg with hg | hg
    · subst hg; exact ⟨h1, h2, h3⟩
    · have := ih g hg; exact ⟨by omega, this.2.1, this.2.2⟩

theorem Chained.pairwise {lo hi : Nat} {l : List (Nat × Nat)}
    (h : Chained lo hi l) : l.Pairwise (fun g1 g2 => g1.2 ≤ g2.1) := by
  induction h with
  | nil => exact List.Pairwise.nil
  | cons _ _ _ h4 ih =>
    exact List.Pairwise.cons (fun g hg => h4.start_le g hg) ih

theorem gapsGo_chained :
    ∀ (m : DeltaMap) (cur : Int) (last lo hi : Nat),
      SortedMap m → lo ≤ hi → last ≤ hi →
      (∀ p ∈ m, last ≤ clampN p.1 lo hi) →
      Chained last hi (gapsGo m cur last lo hi) := by
  intro m
  induction m with
  | nil =>
    intro cur last lo hi _ _ hlh _
    simp only [gapsGo]
    split
    · rename_i hcond
      exact Chained.cons (le_refl last) hcond.2 (le_refl hi) (Chained.nil hi hi)
    · exact Chained.nil last hi
  | cons hd tl ih =>
    intro cur last lo hi hsort hlohi hlh hkeys
    obtain ⟨k, inc⟩ := hd
    rw [SortedMap, List.pairwise_cons] at hsort
    obtain ⟨hhd, htl⟩ := hsort
    have hck1 : last ≤ clampN k lo hi := hkeys (k, inc) (List.mem_cons_self _ _)
    have hck2 : clampN k lo hi ≤ hi := clampN_le hlohi
    have hrest : ∀ p ∈ tl, clampN k lo hi ≤ clampN p.1 lo hi := fun p hp =>
      clampN_mono (le_of_lt (hhd p hp))
    have hrec := ih (cur + inc) (clampN k lo hi) lo hi htl hlohi hck2 hrest
    simp only [gapsGo]
    split
    · rename_i hcond
      exact Chained.cons (le_refl last) hcond.2 hck2 hrec
    · exact hrec.mono hck1

/-! Determinism of the reservation map under insertion order, and
idempotence of duplicate reservations. -/

theorem addDelta_cons_lt {k k0 : Nat} (d d0 : Int) (tl : DeltaMap) (h : k < k0) :
    addDelta k d ((k0, d0) :: tl) = (k, d) :: (k0, d0) :: tl := by
  rw [addDelta, if_pos h]

theorem addDelta_cons_eq {k k0 : Nat} (d d0 : Int) (tl : DeltaMap) (h : k = k0) :
    addDelta k d ((k0, d0) :: tl) = (k0, d0 + d) :: tl := by
  rw [addDelta, if_neg (by omega), if_pos h]

theorem addDelta_cons_gt {k k0 : Nat} (d d0 : Int) (tl : DeltaMap) (h : k0 < k) :
    addDelta k d ((k0, d0) :: tl) = (k0, d0) :: addDelta k d tl := by
  rw [addDelta, if_neg (by omega), if_neg (by omega)]

theorem addDelta_comm (k1 k2 : Nat) (d1 d2 : Int) :
    ∀ m : DeltaMap,
      addDelta k2 d2 (addDelta k1 d1 m) = addDelta k1 d1 (addDelta k2 d2 m) := by
  intro m
  induction m with
  | nil =>
    rcases Nat.lt_trichotomy k1 k2 with h | h | h
    · rw [show addDelta k1 d1 [] = [(k1, d1)] from rfl,
        show addDelta k2 d2 [] = [(k2, d2)] from rfl,
        addDelta_cons_gt d2 d1 [] h, addDelta_cons_lt d1 d2 [] h]
      rfl
    · subst h
      rw [show addDelta k1 d1 [] = [(k1, d1)] from rfl,
        show addDelta k1 d2 [] = [(k1, d2)] from rfl,
        addDelta_cons_eq d2 d1 [] rfl, addDelta_cons_eq d1 d2 [] rfl,
        Int.add_comm d1 d2]
    · rw [show addDelta k1 d1 [] = [(k1, d1)] from rfl,
        show addDelta k2 d2 [] = [(k2, d2)] from rfl,
        addDelta_cons_lt d2 d1 [] h, addDelta_cons_gt d1 d2 [] h]
      rfl
  | cons hd tl ih =>
    obtain ⟨k0, d0⟩ := hd
    rcases Nat.lt_trichotomy k1 k0 with h1 | h1 | h1
    · rcases Nat.lt_trichotomy k2 k0 with h2 | h2 | h2
      · rcases Nat.lt_trichotomy k1 k2 with h12 | h12 | h12
        · rw [addDelta_cons_lt d1 d0 tl h1, addDelta_cons_gt d2 d1 _ h12,
            addDelta_cons_lt d2 d0 tl h2, addDelta_cons_lt d1 d2 _ h12]
        · subst h12
          rw [addDelta_cons_lt d1 d0 tl h1, addDelta_cons_eq d2 d1 _ rfl,
            addDelta_cons_lt d2 d0 tl h2, addDelta_cons_eq d1 d2 _ rfl,
            Int.add_comm d1 d2]
        · rw [addDelta_cons_lt d1 d0 tl h1, addDelta_cons_lt d2 d1 _ h12,
            addDelta_cons_lt d2 d0 tl h2, addDelta_cons_gt d1 d2 _ h12,
            addDelta_cons_lt d1 d0 tl h1]
      · subst h2
        rw [addDelta_cons_lt d1 d0 tl h1, addDelta_cons_gt d2 d1 _ h1,
          addDelta_cons_eq d2 d0 tl rfl, addDelta_cons_lt d1 (d0 + d2) tl h1]
      · rw [addDelta_cons_lt d1 d0 tl h1, addDelta_cons_gt d2 d1 _ (by omega),
          addDelta_cons_gt d2 d0 tl h2, addDelta_cons_lt d1 d0 (addDelta k2 d2 tl) h1]
    · subst h1
      rcases Nat.lt_trichotomy k2 k1 with h2 | h2 | h2
      · rw [addDelta_cons_eq d1 d0 tl rfl, addDelta_cons_lt d2 (d0 + d1) tl h2,
          addDelta_cons_lt d2 d0 tl h2, addDelta_cons_gt d1 d2 _ h2,
          addDelta_cons_eq d1 d0 tl rfl]
      · subst h2
        rw [addDelta_cons_eq d1 d0 tl rfl, addDelta_cons_eq d2 (d0 + d1) tl rfl,
          addDelta_cons_eq d2 d0 tl rfl, addDelta_cons_eq d1 (d0 + d2) tl rfl,
          Int.add_right_comm]
      · rw [addDelta_cons_eq d1 d0 tl rfl, addDelta_cons_gt d2 (d0 + d1) tl h2,
          addDelta_cons_gt d2 d0 tl h2, addDelta_cons_eq d1 d0 (addDelta k2 d2 tl) rfl]
    · rcases Nat.lt_trichotomy k2 k0 with h2 | h2 | h2
      · rw [addDelta_cons_gt d1 d0 tl h1, addDelta_cons_lt d2 d0 (addDelta k1 d1 tl) h2,
          addDelta_cons_lt d2 d0 tl h2, addDelta_cons_gt d1 d2 _ (by omega),
          addDelta_cons_gt d1 d0 tl h1]
      · subst h2
        rw [addDelta_cons_gt d1 d0 tl h1, addDelta_cons_eq d2 d0 (addDelta k1 d1 tl) rfl,
          addDelta_cons_eq d2 d0 tl rfl, addDelta_cons_gt d1 (d0 + d2) tl h1]
      · rw [addDelta_cons_gt d1 d0 tl h1, addDelta_cons_gt d2 d0 (addDelta k1 d1 tl) h2,
          addDelta_cons_gt d2 d0 tl h2, addDelta_cons_gt d1 d0 (addDelta k2 d2 tl) h1, ih]

theorem reserve_comm (m : DeltaMap) (r q : Nat × Nat) :
    reserve (reserve m r) q = reserve (reserve m q) r := by
  unfold reserve
  rw [addDelta_comm r.2 q.1 (-1) 1 (addDelta r.1 1 m),
    addDelta_comm r.1 q.1 1 1 m,
    addDelta_comm r.2 q.2 (-1) (-1) (addDelta r.1 1 (addDelta q.1 1 m)),
    addDelta_comm r.1 q.2 1 (-1) (addDelta q.1 1 m)]

theorem foldl_reserve_perm {r1 r2 : List (Nat × Nat)} (h : r1.Perm r2)
    (m : DeltaMap) : r1.foldl reserve m = r2.foldl reserve m :=
  h.foldl_eq' (fun x _ y _ z => (reserve_comm z x y)) m

theorem self_mem_keys_addDelta (k : Nat) (d : Int) (m : DeltaMap) :
    k ∈ (addDelta k d m).map Prod.fst := by
  induction m with
  | nil => simp [addDelta]
  | cons hd tl ih =>
    obtain ⟨k0, d0⟩ := hd
    rcases Nat.lt_trichotomy k k0 with h | h | h
    · rw [addDelta_cons_lt d d0 tl h]; simp
    · rw [addDelta_cons_eq d d0 tl h]; simp [h]
    · rw [addDelta_cons_gt d d0 tl h]
      simp only [List.map_cons, List.mem_cons]
      right; exact ih

theorem mem_keys_addDelta_mono {j : Nat} {m : DeltaMap} (k : Nat) (d : Int)
    (h : j ∈ m.map Prod.fst) : j ∈ (addDelta k d m).map Prod.fst := by
  induction m with
  | nil => simp at h
  | cons hd tl ih =>
    obtain ⟨k0, d0⟩ := hd
    simp only [List.map_cons, List.mem_cons] at h
    rcases Nat.lt_trichotomy k k0 with hk | hk | hk
    · rw [addDelta_cons_lt d d0 tl hk]
      simp only [List.map_cons, List.mem_cons]
      rcases h with h | h
      · right; left; exact h
      · right; right; exact h
    · rw [addDelta_cons_eq d d0 tl hk]
      simp only [List.map_cons, List.mem_cons]
      exact h
    · rw [addDelta_cons_gt d d0 tl hk]
      simp only [List.map_cons, List.mem_cons]
      rcases h with h | h
      · left; exact h
      · right; exact ih h

theorem mem_keys_foldl_reserve {j : Nat} (L : List (Nat × Nat)) :
    ∀ m : DeltaMap, j ∈ m.map Prod.fst →
      j ∈ (L.foldl reserve m).map Prod.fst := by
  induction L with
  | nil => intro m h; exact h
  | cons r rest ih =>
    intro m h
    exact ih (reserve m r) (mem_keys_addDelta_mono _ _ (mem_keys_addDelta_mono _ _ h))

theorem keys_addDelta_of_mem {k : Nat} (d : Int) {m : DeltaMap}
    (hs : SortedMap m) (h : k ∈ m.map Prod.fst) :
    (addDelta k d m).map Prod.fst = m.map Prod.fst := by
  induction m with
  | nil => simp at h
  | cons hd tl ih =>
    obtain ⟨k0, d0⟩ := hd
    rw [SortedMap, List.pairwise_cons] at hs
    obtain ⟨hhd, htl⟩ := hs
    simp only [List.map_cons, List.mem_cons] at h
    rcases h with h | h
    · rw [addDelta_cons_eq d d0 tl h]
      simp [h]
    · have hgt : k0 < k := by
        rcases List.mem_map.mp h with ⟨p, hp, hpk⟩
        have := hhd p hp
        omega
      rw [addDelta_cons_gt d d0 tl hgt]
      simp only [List.map_cons]
      rw [ih htl h]

theorem keys_reserve_of_mem {m : DeltaMap} {r : Nat × Nat} (hs : SortedMap m)
    (h1 : r.1 ∈ m.map Prod.fst) (h2 : r.2 ∈ m.map Prod.fst) :
    (reserve m r).map Prod.fst = m.map Prod.fst := by
  unfold reserve
  rw [keys_addDelta_of_mem (-1) (sortedMap_addDelta hs)
      (mem_keys_addDelta_mono _ _ h2),
    keys_addDelta_of_mem 1 hs h1]

theorem foldl_reserve_swap (L : List (Nat × Nat)) :
    ∀ (m : DeltaMap) (r : Nat × Nat),
      L.foldl reserve (reserve m r) = reserve (L.foldl reserve m) r := by
  induction L with
  | nil => intro m r; rfl
  | cons q rest ih =>
    intro m r
    simp only [List.foldl_cons]
    rw [reserve_comm m r q, ih]

/-- Two runs of the gap iterator agree whenever the boundary keys agree and
the running depth counters have the same sign at every point. -/
theorem gapsGo_congr :
    ∀ (m1 m2 : DeltaMap) (c1 c2 : Int) (last lo hi : Nat),
      SortedMap m1 → SortedMap m2 →
      m1.map Prod.fst = m2.map Prod.fst →
      (c1 ≤ 0 ↔ c2 ≤ 0) →
      (∀ n : Nat, c1 + sumUpto m1 n ≤ 0 ↔ c2 + sumUpto m2 n ≤ 0) →
      gapsGo m1 c1 last lo hi = gapsGo m2 c2 last lo hi := by
  intro m1
  induction m1 with
  | nil =>
    intro m2 c1 c2 last lo hi _ _ hk hhead _
    have hm2 : m2 = [] := by
      cases m2 with
      | nil => rfl
      | cons hd tl => simp at hk
    subst hm2
    simp only [gapsGo]
    by_cases h1 : c1 ≤ 0 ∧ last < hi
    · rw [if_pos h1, if_pos ⟨hhead.mp h1.1, h1.2⟩]
    · rw [if_neg h1, if_neg ?_]
      intro h2
      exact h1 ⟨hhead.mpr h2.1, h2.2⟩
  | cons hd t1 ih =>
    intro m2 c1 c2 last lo hi hs1 hs2 hk hhead hsum
    obtain ⟨k, inc1⟩ := hd
    cases m2 with
    | nil => simp at hk
    | cons hd2 t2 =>
      obtain ⟨k2, inc2⟩ := hd2
      simp only [List.map_cons, List.cons.injEq] at hk
      obtain ⟨hk0, hkt⟩ := hk
      subst hk0
      rw [SortedMap, List.pairwise_cons] at hs1 hs2
      obtain ⟨hhd1, ht1⟩ := hs1
      obtain ⟨hhd2, ht2⟩ := hs2
      have ht1z : sumUpto t1 k = 0 :=
        sumUpto_eq_zero_of_gt fun p hp => hhd1 p hp
      have ht2z : sumUpto t2 k = 0 :=
        sumUpto_eq_zero_of_gt fun p hp => hhd2 p hp
      have hstep : c1 + inc1 ≤ 0 ↔ c2 + inc2 ≤ 0 := by
        have := hsum k
        rw [sumUpto_cons, if_pos (le_refl k), ht1z,
          sumUpto_cons, if_pos (le_refl k), ht2z] at this
        constructor
        · intro h; have := this.mp (by omega); omega
        · intro h; have := this.mpr (by omega); omega
      have hrec : ∀ n : Nat,
          (c1 + inc1) + sumUpto t1 n ≤ 0 ↔ (c2 + inc2) + sumUpto t2 n ≤ 0 := by
        intro n
        by_cases hn : k ≤ n
        · have := hsum n
          rw [sumUpto_cons, if_pos hn, sumUpto_cons, if_pos hn] at this
          constructor
          · intro h; have := this.mp (by omega); omega
          · intro h; have := this.mpr (by omega); omega
        · have hz1 : sumUpto t1 n = 0 :=
            sumUpto_eq_zero_of_gt fun p hp => by have := hhd1 p hp; omega
          have hz2 : sumUpto t2 n = 0 :=
            sumUpto_eq_zero_of_gt fun p hp => by have := hhd2 p hp; omega
          rw [hz1, hz2]
          constructor
          · intro h; have := hstep.mp (by omega); omega
          · intro h; have := hstep.mpr (by omega); omega
      have hrecall := ih t2 (c1 + inc1) (c2 + inc2) (clampN k lo hi) lo hi
        ht1 ht2 hkt hstep hrec
      simp only [gapsGo]
      by_cases hc : c1 ≤ 0 ∧ last < clampN k lo hi
      · rw [if_pos hc, if_pos ⟨hhead.mp hc.1, hc.2⟩, hrecall]
      · rw [if_neg hc, if_neg ?_, hrecall]
        intro h2
        exact hc ⟨hhead.mpr h2.1, h2.2⟩

theorem depth_cons (q : Nat × Nat) (L : List (Nat × Nat)) (n : Nat) :
    depth (q :: L) n = (if q.1 ≤ n ∧ n < q.2 then 1 else 0) + depth L n := by
  simp only [depth, List.filter_cons]
  by_cases h : q.1 ≤ n ∧ n < q.2
  · simp [h, Nat.add_comm]
  · simp [h]

end GapFinder

/-- C4: for every finite set of reserved intervals and every bounding
window `[lo, hi)`, the free ranges emitted by `GapFinder::gaps` are
pairwise disjoint, in ascending order, each clamped inside the window, and
their union together with the union of the reservations clipped to the
window equals the whole window. -/
theorem C4_gap_finder_totality (resv : List (Nat × Nat)) (lo hi : Nat)
    (hres : ∀ r ∈ resv, r.1 ≤ r.2) (hw : lo ≤ hi) :
    (GapFinder.gapsOf resv (lo, hi)).Pairwise (fun g1 g2 => g1.2 ≤ g2.1) ∧
    (∀ g ∈ GapFinder.gapsOf resv (lo, hi), lo ≤ g.1 ∧ g.1 < g.2 ∧ g.2 ≤ hi) ∧
    (∀ x : Nat,
      ((∃ g ∈ GapFinder.gapsOf resv (lo, hi), g.1 ≤ x ∧ x < g.2) ∨
        (lo ≤ x ∧ x < hi ∧ ∃ r ∈ resv, r.1 ≤ x ∧ x < r.2)) ↔
      (lo ≤ x ∧ x < hi)) := by
  have hsorted := GapFinder.sortedMap_buildMap resv
  have hch : GapFinder.Chained lo hi (GapFinder.gapsOf resv (lo, hi)) := by
    apply GapFinder.gapsGo_chained _ _ _ _ _ hsorted hw hw
    intro p _
    exact GapFinder.le_clampN p.1 lo hi
  refine ⟨hch.pairwise, hch.bounds, ?_⟩
  intro x
  constructor
  · rintro (⟨g, hg, hgx1, hgx2⟩ | ⟨h1, h2, _⟩)
    · have := hch.bounds g hg
      exact ⟨by omega, by omega⟩
    · exact ⟨h1, h2⟩
  · rintro ⟨hx1, hx2⟩
    by_cases hcov : ∃ r ∈ resv, r.1 ≤ x ∧ x < r.2
    · exact Or.inr ⟨hx1, hx2, hcov⟩
    · left
      have hdep0 : GapFinder.depth resv x = 0 := by
        simp only [GapFinder.depth, List.length_eq_zero, List.filter_eq_nil_iff]
        intro r hr hc
        simp only [decide_eq_true_eq] at hc
        exact hcov ⟨r, hr, hc⟩
      have hz : (0 : Int) + GapFinder.sumUpto (GapFinder.buildMap resv) x ≤ 0 := by
        rw [GapFinder.sumUpto_buildMap resv hres x, hdep0]
        simp
      exact GapFinder.gapsGo_cover _ 0 lo lo hi hsorted (le_refl lo) x hx1 hx2 hz

/-- C5: for every multiset of reservations and every window, the emitted
free ranges are the same regardless of reservation insertion order, and
reserving the same interval twice yields exactly the same free-range
output as reserving it once (the interval stays fully excluded, never
double-freed). -/
theorem C5_gap_finder_order_invariance_idempotence :
    (∀ (r1 r2 : List (Nat × Nat)) (w : Nat × Nat), r1.Perm r2 →
      GapFinder.gapsOf r1 w = GapFinder.gapsOf r2 w) ∧
    (∀ (r : Nat × Nat) (resv : List (Nat × Nat)) (w : Nat × Nat),
      r.1 ≤ r.2 → (∀ q ∈ resv, q.1 ≤ q.2) →
      GapFinder.gapsOf (r :: r :: resv) w = GapFinder.gapsOf (r :: resv) w) := by
  constructor
  · intro r1 r2 w h
    unfold GapFinder.gapsOf GapFinder.buildMap
    rw [GapFinder.foldl_reserve_perm h]
  · intro r resv w hr hresv
    have hvalid : ∀ q ∈ r :: resv, q.1 ≤ q.2 := by
      intro q hq
      simp only [List.mem_cons] at hq
      rcases hq with hq | hq
      · subst hq; exact hr
      · exact hresv q hq
    have hvalid2 : ∀ q ∈ r :: r :: resv, q.1 ≤ q.2 := by
      intro q hq
      simp only [List.mem_cons] at hq
      rcases hq with hq | hq | hq
      · subst hq; exact hr
      · subst hq; exact hr
      · exact hresv q hq
    have hsorted1 := GapFinder.sortedMap_buildMap (r :: resv)
    have hm2 : GapFinder.buildMap (r :: r :: resv)
        = GapFinder.reserve (GapFinder.buildMap (r :: resv)) r := by
      show List.foldl GapFinder.reserve
          (GapFinder.reserve (GapFinder.reserve [] r) r) resv = _
      rw [GapFinder.foldl_reserve_swap resv (GapFinder.reserve [] r) r]
      rfl
    have hk1 : r.1 ∈ (GapFinder.buildMap (r :: resv)).map Prod.fst := by
      apply GapFinder.mem_keys_foldl_reserve resv (GapFinder.reserve [] r)
      exact GapFinder.mem_keys_addDelta_mono r.2 (-1)
        (GapFinder.self_mem_keys_addDelta r.1 1 [])
    have hk2 : r.2 ∈ (GapFinder.buildMap (r :: resv)).map Prod.fst := by
      apply GapFinder.mem_keys_foldl_reserve resv (GapFinder.reserve [] r)
      exact GapFinder.self_mem_keys_addDelta r.2 (-1) _
    have hkeys : (GapFinder.buildMap (r :: r :: resv)).map Prod.fst
        = (GapFinder.buildMap (r :: resv)).map Prod.fst := by
      rw [hm2]
      exact GapFinder.keys_reserve_of_mem hsorted1 hk1 hk2
    have hsorted2 := GapFinder.sortedMap_buildMap (r :: r :: resv)
    unfold GapFinder.gapsOf GapFinder.gaps
    apply GapFinder.gapsGo_congr _ _ 0 0 w.1 w.1 w.2 hsorted2 hsorted1 hkeys
      Iff.rfl
    intro n
    rw [GapFinder.sumUpto_buildMap _ hvalid2 n, GapFinder.sumUpto_buildMap _ hvalid n,
      GapFinder.depth_cons, GapFinder.depth_cons]
    split_ifs with hc
    · push_cast; omega
    · push_cast; omega

/-- Witness for C5: a two-element permutation, and a duplicated
reservation, both at window `[0, 9)`. -/
theorem C5_gap_finder_order_invariance_idempotence_witness :
    ([((3 : Nat), (5 : Nat)), (1, 2)].Perm [(1, 2), (3, 5)] ∧
      GapFinder.gapsOf [((3 : Nat), (5 : Nat)), (1, 2)] (0, 9)
        = GapFinder.gapsOf [(1, 2), (3, 5)] (0, 9)) ∧
    ((3 : Nat) ≤ 5 ∧ (∀ q ∈ [((1 : Nat), (2 : Nat))], q.1 ≤ q.2) ∧
      GapFinder.gapsOf [(3, 5), (3, 5), (1, 2)] (0, 9)
        = GapFinder.gapsOf [(3, 5), (1, 2)] (0, 9)) :=
  ⟨⟨by decide,
    C5_gap_finder_order_invariance_idempotence.1 _ _ (0, 9) (by decide)⟩,
   by decide, by decide,
    C5_gap_finder_order_invariance_idempotence.2 (3, 5) [(1, 2)] (0, 9)
      (by decide) (by decide)⟩

/-- Witness for C4 at the concrete input `resv = [(3,5)]`, window `[1,8)`. -/
theorem C4_gap_finder_totality_witness :
    (∀ r ∈ [((3 : Nat), (5 : Nat))], r.1 ≤ r.2) ∧ (1 : Nat) ≤ 8 ∧
    ((GapFinder.gapsOf [(3, 5)] (1, 8)).Pairwise (fun g1 g2 => g1.2 ≤ g2.1) ∧
    (∀ g ∈ GapFinder.gapsOf [(3, 5)] (1, 8), 1 ≤ g.1 ∧ g.1 < g.2 ∧ g.2 ≤ 8) ∧
    (∀ x : Nat,
      ((∃ g ∈ GapFinder.gapsOf [(3, 5)] (1, 8), g.1 ≤ x ∧ x < g.2) ∨
        (1 ≤ x ∧ x < 8 ∧ ∃ r ∈ [((3 : Nat), (5 : Nat))], r.1 ≤ x ∧ x < r.2)) ↔
      (1 ≤ x ∧ x < 8))) :=
  ⟨by decide, by decide, C4_gap_finder_totality [(3, 5)] 1 8 (by decide) (by decide)⟩

/-- C6: for prefix 172.16.1.0/24 (window 172.16.1.1–172.16.1.254),
reserving 172.16.1.1 yields exactly the free range
[172.16.1.2, 172.16.1.254); reserving {172.16.1.1, 172.16.1.15,
range 172.16.1.10–172.16.1.20} yields exactly [172.16.1.2, 172.16.1.9)
followed by [172.16.1.21, 172.16.1.254). -/
theorem C6_gap_finder_scenarios :
    GapFinder.find_gaps_ipv4 (GapFinder.reserve_ipv4 [] (ip172_16_1 1))
        (Ipv4Net.mk (ip172_16_1 0) 24)
      = [(ip172_16_1 2, ip172_16_1 254)] ∧
    GapFinder.find_gaps_ipv4
        (GapFinder.reserve_ipv4_range
          (GapFinder.reserve_ipv4 (GapFinder.reserve_ipv4 [] (ip172_16_1 1))
            (ip172_16_1 15))
          (ip172_16_1 10, ip172_16_1 20))
        (Ipv4Net.mk (ip172_16_1 0) 24)
      = [(ip172_16_1 2, ip172_16_1 9), (ip172_16_1 21, ip172_16_1 254)] := by
  constructor <;> decide

/-! ## Topology data model

Projections of the entities and accessors the synthesizers read
(`src/backend/src/topology/mod.rs`, `src/backend/src/topology/access/`).
Ids are `Nat`; IPv4/IPv6 addresses are `Nat` values. -/

/-- `PhysicalPortId` (topology/mod.rs). -/
inductive PhysicalPortId
  | ethernet (id : Nat)
  | sfpSfpPlus (id : Nat)
  | wifi (id : Nat)
  | wlan (id : Nat)
  | loopback
  deriving DecidableEq, Repr

/-- `PhysicalPortId::default_name`. -/
def PhysicalPortId.default_name : PhysicalPortId → Option String
  | .ethernet i => some ("ether" ++ toString i)
  | .sfpSfpPlus i => some ("sfp-sfpplus" ++ toString i)
  | .wifi _ => none
  | .wlan _ => none
  | .loopback => none

/-- `PhysicalPortId::short_name` (two-digit padding elided to plain
decimal; only injectivity per kind matters for the claims). -/
def PhysicalPortId.short_name : PhysicalPortId → String
  | .ethernet i => "e" ++ toString i
  | .sfpSfpPlus i => "s" ++ toString i
  | .wifi i => "w" ++ toString i
  | .wlan i => "w" ++ toString i
  | .loopback => "lo"

/-- `IpAddr` (v4 or v6), address as `Nat`. -/
inductive IpAddrM
  | v4 (a : Nat)
  | v6 (a : Nat)
  deriving DecidableEq, Repr

/-- `ipnet::IpNet`: an address with a mask length. -/
inductive IpNetM
  | v4 (addr : Nat) (len : Nat)
  | v6 (addr : Nat) (len : Nat)
  deriving DecidableEq, Repr

/-- `IpNet::addr()`. -/
def IpNetM.addr : IpNetM → IpAddrM
  | .v4 a _ => .v4 a
  | .v6 a _ => .v6 a

/-- `IpRangeAccess`: `is_dhcp()`, `start()`, `end()` (here `stop`). -/
structure IpRangeM where
  is_dhcp : Bool
  start : Option IpAddrM
  stop : Option IpAddrM
  deriving DecidableEq, Repr

/-- `IpPrefixAccess`, projected to the accessors `setup_ip_addresses`
reads: `id`, `prefix()` (here `net`), `ranges()`, `children()` (each child
projected to its own `prefix()`), `ips()` (each address projected to its
`addr()`). -/
structure IpPrefixM where
  id : Nat
  net : Option IpNetM
  ranges : List IpRangeM
  children : List (Option IpNetM)
  ips : List (Option IpAddrM)
  deriving DecidableEq, Repr

/-- `IpAddressAccess`: `net()` and `prefix()` (here `pfx`);
`addr()` is the network's address. -/
structure IpAddressM where
  net : Option IpNetM
  pfx : Option IpPrefixM
  deriving DecidableEq, Repr

def IpAddressM.addr (a : IpAddressM) : Option IpAddrM := a.net.map IpNetM.addr

/-- `VlanAccess`: inventory id plus `vlan_id()` (the optional numeric
tag). -/
structure VlanM where
  id : Nat
  vlan_id : Option Nat
  deriving DecidableEq, Repr

/-- Modelled from the spec: the `ips` entries (addresses with their
prefix bookkeeping, as `setup_ip_addresses` reads them through
`ip_address.net()` / `ip_address.prefix()`) and the
`is_enable_dhcp_client` / `is_enable_dhcp_server` accessors called there
have no definitions in this source slice; they follow the spec's
description of the DHCP wiring flags (backed by the
`Interface::enable_dhcp_client` / `enable_dhcp_server` inventory fields,
topology/mod.rs) and of the prefix bookkeeping.  The remaining fields
mirror `InterfaceAccess` / `Interface` directly. -/
structure IfCore where
  id : Nat
  name : String
  external : Option PhysicalPortId
  tagged_vlans : List VlanM
  untagged_vlan : Option VlanM
  ips : List IpAddressM
  use_ospf : Bool
  enable_dhcp_client : Bool
  enable_dhcp_server : Bool
  enable_poe : Bool
  deriving DecidableEq, Repr

/-- An interface together with its resolved optional parent bridge
interface (`InterfaceAccess::bridge()`). -/
structure InterfaceM where
  core : IfCore
  bridge : Option IfCore
  deriving DecidableEq, Repr

/-- `interface.bridge().unwrap_or(interface.clone())`. -/
def InterfaceM.root (i : InterfaceM) : IfCore := i.bridge.getD i.core

/-- `VxlanAccess`: inventory identity, `name()`, `vni()`, `vteps()`. -/
structure VxlanM where
  id : Nat
  name : Option String
  vni : Option Nat
  vteps : List IpAddrM
  deriving DecidableEq, Repr

/-- `VlanAccess` as read on the wlan path: inventory identity plus
`vxlan()`. -/
structure WVlanM where
  id : Nat
  vxlan : Option VxlanM
  deriving DecidableEq, Repr

/-- `WlanAccess`: its optional `vlan()`. -/
structure WlanM where
  vlan : Option WVlanM
  deriving DecidableEq, Repr

/-- `WlanGroupAccess`: `mgmt_vlan()` and `wlan()`. -/
structure WlanGroupM where
  mgmt_vlan : Option WVlanM
  wlan : List WlanM
  deriving DecidableEq, Repr

/-- The fields of one device that `generate_from` reads
(`DeviceAccess`). -/
structure DeviceM where
  name : String
  interfaces : List InterfaceM
  loopback_ip : Option IpAddressM
  primary_ip_v4 : Option Nat
  wlan_ap_of : Option WlanGroupM
  deriving DecidableEq, Repr

/-! ## L2 plane synthesizer (src/backend/src/device/ros/l2/mod.rs) -/

/-- `L2Port`. -/
inductive L2Port
  | taggedEthernet (name : String) (port : PhysicalPortId)
  | untaggedEthernet (name : String) (port : PhysicalPortId)
  | vxLan (name : String)
  | caps
  deriving DecidableEq, Repr

/-- `L2Plane`. -/
structure L2Plane where
  ports : List L2Port
  vlan : Option VlanM
  vlan_id : Nat
  root_port : IfCore
  deriving DecidableEq, Repr

/-- `L2Setup`. -/
structure L2Setup where
  planes : List L2Plane
  deriving DecidableEq, Repr

/-- The `Ord` on `Option<VlanId>`: `None < Some`, `Some` by value. -/
def optVlanLt : Option Nat → Option Nat → Bool
  | none, none => false
  | none, some _ => true
  | some _, none => false
  | some x, some y => x < y

/-- Strict order of the `BTreeMap` key `(InterfaceId, Option<VlanId>)`:
lexicographic, with `None < Some` on the second component. -/
def planeKeyLt (a b : Nat × Option Nat) : Bool :=
  a.1 < b.1 || (a.1 == b.1 && optVlanLt a.2 b.2)

/-- One entry of the plane `BTreeMap`:
`(bridge id, optional vlan id) ↦ (root interface, ports)`. -/
abbrev PlaneEntry := (Nat × Option Nat) × (IfCore × List L2Port)

/-- `planes.entry(key).or_insert_with(|| (root, Vec::new())).1.push(port)`
on the key-sorted association list. -/
def planesInsert (key : Nat × Option Nat) (root : IfCore) (port : L2Port) :
    List PlaneEntry → List PlaneEntry
  | [] => [(key, (root, [port]))]
  | (k0, v0) :: rest =>
    if planeKeyLt key k0 then (key, (root, [port])) :: (k0, v0) :: rest
    else if key = k0 then (k0, (v0.1, v0.2 ++ [port])) :: rest
    else (k0, v0) :: planesInsert key root port rest

/-- `vlans.insert(vlan.id, vlan)` (`HashMap` insert-or-overwrite). -/
def vlansInsert (v : VlanM) : List (Nat × VlanM) → List (Nat × VlanM)
  | [] => [(v.id, v)]
  | (k, w) :: rest =>
    if k = v.id then (k, v) :: rest else (k, w) :: vlansInsert v rest

/-- `vlans.get(&id)`. -/
def vlansGet (m : List (Nat × VlanM)) (id : Nat) : Option VlanM :=
  (m.find? (fun p => p.1 = id)).map Prod.snd

/-- Loop body of `L2Setup::new`'s first pass over `device.interfaces()`:
group each interface's tagged/untagged VLAN memberships into the plane
map keyed by `(bridge id, vlan id)`, recording every encountered VLAN. -/
def l2CollectIf (gen : InterfaceM → String)
    (st : List PlaneEntry × List (Nat × VlanM)) (interface : InterfaceM) :
    List PlaneEntry × List (Nat × VlanM) :=
  let root_device := interface.root
  let bridge_id := root_device.id
  match interface.core.external with
  | none => st
  | some port =>
    let name := gen interface
    let entries :=
      interface.core.tagged_vlans.map
        (fun vl => (vl, L2Port.taggedEthernet name port))
      ++ (interface.core.untagged_vlan.map
        (fun vl => (vl, L2Port.untaggedEthernet name port))).toList
    if entries.isEmpty then
      (planesInsert (bridge_id, none) root_device
        (L2Port.untaggedEthernet name port) st.1, st.2)
    else
      entries.foldl
        (fun st e =>
          (planesInsert (bridge_id, some e.1.id) root_device e.2 st.1,
           vlansInsert e.1 st.2))
        st

/-- The candidate scan `while !used_vlans.insert(candidate)`; fuel-bounded
(the fuel in `freshTag` always suffices, see `freshTag_spec`). -/
def freshTagGo : Nat → Nat → List Nat → Nat
  | 0, c, _ => c
  | fuel + 1, c, used => if c ∈ used then freshTagGo fuel (c + 1) used else c

/-- `let mut candidate = 60000; while !used_vlans.insert(candidate)
{ candidate += 1; }`. -/
def freshTag (used : List Nat) : Nat := freshTagGo (used.length + 1) 60000 used

/-- The initial `used_vlans` set: every inventory tag of a VLAN referenced
by a plane key. -/
def usedVlansOf (pm : List PlaneEntry) (vlans : List (Nat × VlanM)) :
    List Nat :=
  ((pm.map Prod.fst).filterMap Prod.snd).filterMap
    (fun id => (vlansGet vlans id).bind VlanM.vlan_id)

/-- Second pass of `L2Setup::new`: resolve each plane's VLAN, keep its
inventory tag or synthesize a fresh one, threading the used-tag set. -/
def assignTags (vlans : List (Nat × VlanM)) :
    List PlaneEntry → List Nat → List L2Plane
  | [], _ => []
  | (key, (root, ports)) :: rest, used =>
    let vlan := key.2.bind (vlansGet vlans)
    match vlan.bind VlanM.vlan_id with
    | some t =>
      { ports := ports, vlan := vlan, vlan_id := t, root_port := root }
        :: assignTags vlans rest used
    | none =>
      let candidate := freshTag used
      { ports := ports, vlan := vlan, vlan_id := candidate, root_port := root }
        :: assignTags vlans rest (candidate :: used)

/-- `L2Setup::new`. -/
def L2Setup.new (device : DeviceM) (gen : InterfaceM → String) : L2Setup :=
  let st := device.interfaces.foldl (l2CollectIf gen) ([], [])
  ⟨assignTags st.2 st.1 (usedVlansOf st.1 st.2)⟩

/-! ### Theory of the tag synthesis -/

theorem filter_length_lt_of_mem {c : Nat} {used : List Nat} (h : c ∈ used) :
    (used.filter (fun x => c + 1 ≤ x)).length
      < (used.filter (fun x => c ≤ x)).length := by
  induction used with
  | nil => cases h
  | cons a tl ih =>
    have hsub : (tl.filter (fun x => c + 1 ≤ x)).length
        ≤ (tl.filter (fun x => c ≤ x)).length :=
      (List.monotone_filter_right tl
        (fun x hx => by simp only [decide_eq_true_eq] at hx ⊢; omega)).length_le
    simp only [List.mem_cons] at h
    simp only [List.filter_cons]
    rcases h with h | h
    · subst h
      rw [if_neg (by simp), if_pos (by simp)]
      simpa using Nat.lt_succ_of_le hsub
    · by_cases hc1 : c + 1 ≤ a
      · rw [if_pos (by simpa using hc1), if_pos (by simp; omega)]
        simpa using ih h
      · by_cases hc : c ≤ a
        · rw [if_neg (by simpa using hc1), if_pos (by simpa using hc)]
          exact Nat.lt_succ_of_lt (ih h)
        · rw [if_neg (by simpa using hc1), if_neg (by simpa using hc)]
          exact ih h

theorem freshTagGo_spec :
    ∀ (fuel c : Nat) (used : List Nat),
      (used.filter (fun x => c ≤ x)).length < fuel →
      c ≤ freshTagGo fuel c used ∧ freshTagGo fuel c used ∉ used := by
  intro fuel
  induction fuel with
  | zero => intro c used h; omega
  | succ f ih =>
    intro c used h
    simp only [freshTagGo]
    by_cases hc : c ∈ used
    · rw [if_pos hc]
      have hlt := filter_length_lt_of_mem hc
      have := ih (c + 1) used (by omega)
      exact ⟨by omega, this.2⟩
    · rw [if_neg hc]
      exact ⟨le_refl c, hc⟩

theorem freshTag_spec (used : List Nat) :
    60000 ≤ freshTag used ∧ freshTag used ∉ used := by
  apply freshTagGo_spec
  have := List.length_filter_le (fun x => 60000 ≤ x) used
  omega

/-- Structural correspondence between the plane map and the planes
produced by `assignTags`: ports, root interface and resolved VLAN are
taken from the entry. -/
theorem assignTags_link (vlans : List (Nat × VlanM)) :
    ∀ (pm : List PlaneEntry) (used : List Nat),
      List.Forall₂
        (fun (e : PlaneEntry) (p : L2Plane) =>
          p.ports = e.2.2 ∧ p.root_port = e.2.1 ∧
          p.vlan = e.1.2.bind (vlansGet vlans))
        pm (assignTags vlans pm used) := by
  intro pm
  induction pm with
  | nil => intro used; exact List.Forall₂.nil
  | cons e rest ih =>
    intro used
    obtain ⟨key, root, ports⟩ := e
    simp only [assignTags]
    split
    · exact List.Forall₂.cons ⟨rfl, rfl, rfl⟩ (ih used)
    · exact List.Forall₂.cons ⟨rfl, rfl, rfl⟩ (ih _)

theorem forall2_mem_right {α β : Type} {R : α → β → Prop}
    {l1 : List α} {l2 : List β} (h : List.Forall₂ R l1 l2) :
    ∀ b ∈ l2, ∃ a ∈ l1, R a b := by
  induction h with
  | nil => intro b hb; cases hb
  | cons hr _ ih =>
    intro b hb
    simp only [List.mem_cons] at hb
    rcases hb with hb | hb
    · subst hb
      exact ⟨_, List.mem_cons_self _ _, hr⟩
    · obtain ⟨a, ha, har⟩ := ih b hb
      exact ⟨a, List.mem_cons_of_mem _ ha, har⟩

/-- Tag synthesis invariant: every synthesized tag is `≥ 60000`, outside
the running used set; tagged planes keep their inventory tag; the
synthesized tags are mutually distinct. -/
theorem assignTags_synth_spec (vlans : List (Nat × VlanM)) :
    ∀ (pm : List PlaneEntry) (used : List Nat),
      (∀ p ∈ assignTags vlans pm used,
        p.vlan.bind VlanM.vlan_id = none →
          60000 ≤ p.vlan_id ∧ p.vlan_id ∉ used) ∧
      (∀ p ∈ assignTags vlans pm used,
        ∀ t, p.vlan.bind VlanM.vlan_id = some t → p.vlan_id = t) ∧
      (((assignTags vlans pm used).filter
          (fun p => p.vlan.bind VlanM.vlan_id = none)).map
        (fun p => p.vlan_id)).Nodup := by
  intro pm
  induction pm with
  | nil =>
    intro used
    refine ⟨?_, ?_, ?_⟩ <;> simp [assignTags]
  | cons e rest ih =>
    intro used
    obtain ⟨key, root, ports⟩ := e
    simp only [assignTags]
    split
    · rename_i t ht
      obtain ⟨ih1, ih2, ih3⟩ := ih used
      refine ⟨?_, ?_, ?_⟩
      · intro p hp hnone
        simp only [List.mem_cons] at hp
        rcases hp with hp | hp
        · subst hp
          simp only at hnone
          rw [hnone] at ht
          cases ht
        · exact ih1 p hp hnone
      · intro p hp t' ht'
        simp only [List.mem_cons] at hp
        rcases hp with hp | hp
        · subst hp
          simp only at ht' ⊢
          rw [ht'] at ht
          cases ht
          rfl
        · exact ih2 p hp t' ht'
      · rw [List.filter_cons]
        rw [if_neg (by simp [ht])]
        exact ih3
    · rename_i ht
      obtain ⟨ih1, ih2, ih3⟩ := ih (freshTag used :: used)
      have hfresh := freshTag_spec used
      refine ⟨?_, ?_, ?_⟩
      · intro p hp hnone
        simp only [List.mem_cons] at hp
        rcases hp with hp | hp
        · subst hp
          exact ⟨hfresh.1, hfresh.2⟩
        · have := ih1 p hp hnone
          refine ⟨this.1, ?_⟩
          intro hmem
          exact this.2 (List.mem_cons_of_mem _ hmem)
      · intro p hp t' ht'
        simp only [List.mem_cons] at hp
        rcases hp with hp | hp
        · subst hp
          simp only at ht'
          rw [ht'] at ht
          cases ht
        · exact ih2 p hp t' ht'
      · rw [List.filter_cons]
        rw [if_pos (by simp [ht])]
        simp only [List.map_cons, List.nodup_cons]
        refine ⟨?_, ih3⟩
        intro hmem
        rcases List.mem_map.mp hmem with ⟨p, hp, hpid⟩
        rcases List.mem_filter.mp hp with ⟨hpmem, hpnone⟩
        simp only [decide_eq_true_eq] at hpnone
        have := (ih1 p hpmem hpnone).2
        rw [hpid] at this
        exact this (List.mem_cons_self _ _)

theorem mem_usedVlansOf {pm : List PlaneEntry} {vlans : List (Nat × VlanM)}
    {e : PlaneEntry} {vid t : Nat}
    (he : e ∈ pm) (hk : e.1.2 = some vid)
    (ht : (vlansGet vlans vid).bind VlanM.vlan_id = some t) :
    t ∈ usedVlansOf pm vlans := by
  unfold usedVlansOf
  apply List.mem_filterMap.mpr
  refine ⟨vid, ?_, ht⟩
  apply List.mem_filterMap.mpr
  exact ⟨e.1, List.mem_map_of_mem Prod.fst he, hk⟩

/-- C3: in the output of `L2Setup::new`, every plane whose VLAN has no
inventory tag gets a synthetic tag that is at least 60000 and distinct
from every inventory tag used by the device's planes; the synthesized
tags across the device's planes contain no duplicates. -/
theorem C3_synthetic_tag_uniqueness (device : DeviceM)
    (gen : InterfaceM → String) :
    (∀ p ∈ (L2Setup.new device gen).planes,
      p.vlan.bind VlanM.vlan_id = none →
        60000 ≤ p.vlan_id ∧
        ∀ q ∈ (L2Setup.new device gen).planes,
          ∀ t, q.vlan.bind VlanM.vlan_id = some t → p.vlan_id ≠ t) ∧
    (((L2Setup.new device gen).planes.filter
        (fun p => p.vlan.bind VlanM.vlan_id = none)).map
      (fun p => p.vlan_id)).Nodup := by
  have hplanes : (L2Setup.new device gen).planes
      = assignTags (device.interfaces.foldl (l2CollectIf gen) ([], [])).2
          (device.interfaces.foldl (l2CollectIf gen) ([], [])).1
          (usedVlansOf (device.interfaces.foldl (l2CollectIf gen) ([], [])).1
            (device.interfaces.foldl (l2CollectIf gen) ([], [])).2) := rfl
  obtain ⟨h1, _h2, h3⟩ := assignTags_synth_spec
    (device.interfaces.foldl (l2CollectIf gen) ([], [])).2
    (device.interfaces.foldl (l2CollectIf gen) ([], [])).1
    (usedVlansOf (device.interfaces.foldl (l2CollectIf gen) ([], [])).1
      (device.interfaces.foldl (l2CollectIf gen) ([], [])).2)
  have hlink := assignTags_link
    (device.interfaces.foldl (l2CollectIf gen) ([], [])).2
    (device.interfaces.foldl (l2CollectIf gen) ([], [])).1
    (usedVlansOf (device.interfaces.foldl (l2CollectIf gen) ([], [])).1
      (device.interfaces.foldl (l2CollectIf gen) ([], [])).2)
  rw [hplanes]
  refine ⟨?_, h3⟩
  intro p hp hnone
  have hps := h1 p hp hnone
  refine ⟨hps.1, ?_⟩
  intro q hq t ht heq
  obtain ⟨e, he, hlinked⟩ := forall2_mem_right hlink q hq
  obtain ⟨_, _, hqv⟩ := hlinked
  rw [hqv] at ht
  cases hk : e.1.2 with
  | none =>
    rw [hk] at ht
    simp at ht
  | some vid =>
    rw [hk] at ht
    simp only [Option.some_bind] at ht
    have hmem := mem_usedVlansOf he hk ht
    rw [← heq] at hmem
    exact hps.2 hmem

def deviceW3 : DeviceM :=
  { name := "w3",
    interfaces :=
      [{ core := { id := 1, name := "a", external := some (.ethernet 1),
                   tagged_vlans := [⟨5, some 100⟩], untagged_vlan := none,
                   ips := [], use_ospf := false, enable_dhcp_client := false,
                   enable_dhcp_server := false, enable_poe := false },
         bridge := none },
       { core := { id := 2, name := "b", external := some (.ethernet 2),
                   tagged_vlans := [], untagged_vlan := none,
                   ips := [], use_ospf := false, enable_dhcp_client := false,
                   enable_dhcp_server := false, enable_poe := false },
         bridge := none }],
    loopback_ip := none, primary_ip_v4 := none, wlan_ap_of := none }

/-- Witness for C3: on a concrete device with one tagged and one tag-free
plane, the tag-free plane (index 1) gets a synthetic tag `≥ 60000`. -/
theorem C3_synthetic_tag_uniqueness_witness :
    ∃ h : 1 < (L2Setup.new deviceW3 (fun i => i.core.name)).planes.length,
      ((L2Setup.new deviceW3 (fun i => i.core.name)).planes.get
          ⟨1, h⟩).vlan.bind VlanM.vlan_id = none ∧
      60000 ≤ ((L2Setup.new deviceW3 (fun i => i.core.name)).planes.get
          ⟨1, h⟩).vlan_id := by
  refine ⟨by decide, by decide, ?_⟩
  exact ((C3_synthetic_tag_uniqueness deviceW3 (fun i => i.core.name)).1 _
    (List.get_mem _ _ _) (by decide)).1

/-! ### Order of the emitted planes -/

theorem optVlanLt_trans {a b c : Option Nat}
    (h1 : optVlanLt a b = true) (h2 : optVlanLt b c = true) :
    optVlanLt a c = true := by
  cases a <;> cases b <;> cases c <;> simp [optVlanLt] at * <;> omega

theorem optVlanLt_total {a b : Option Nat} (h : a ≠ b) :
    optVlanLt a b = true ∨ optVlanLt b a = true := by
  cases a <;> cases b <;> simp [optVlanLt] at * <;> omega

theorem planeKeyLt_iff {a b : Nat × Option Nat} :
    planeKeyLt a b = true ↔
      a.1 < b.1 ∨ (a.1 = b.1 ∧ optVlanLt a.2 b.2 = true) := by
  simp [planeKeyLt]

theorem planeKeyLt_trans {a b c : Nat × Option Nat}
    (h1 : planeKeyLt a b = true) (h2 : planeKeyLt b c = true) :
    planeKeyLt a c = true := by
  rw [planeKeyLt_iff] at *
  rcases h1 with h1 | ⟨h1e, h1v⟩ <;> rcases h2 with h2 | ⟨h2e, h2v⟩
  · left; omega
  · left; omega
  · left; omega
  · right; exact ⟨by omega, optVlanLt_trans h1v h2v⟩

theorem planeKeyLt_flip {a b : Nat × Option Nat}
    (hlt : ¬ planeKeyLt a b = true) (hne : a ≠ b) : planeKeyLt b a = true := by
  rw [planeKeyLt_iff] at *
  rcases a with ⟨a1, a2⟩
  rcases b with ⟨b1, b2⟩
  by_cases he : a1 = b1
  · subst he
    have hv : a2 ≠ b2 := by
      intro h; exact hne (by rw [h])
    rcases optVlanLt_total hv with h | h
    · exact absurd (Or.inr ⟨rfl, h⟩) hlt
    · exact Or.inr ⟨rfl, h⟩
  · by_cases hl : a1 < b1
    · exact absurd (Or.inl hl) hlt
    · left
      simp only at *
      omega

theorem mem_keys_planesInsert {key : Nat × Option Nat} {root : IfCore}
    {port : L2Port} {m : List PlaneEntry} {e : PlaneEntry}
    (h : e ∈ planesInsert key root port m) :
    e.1 = key ∨ e.1 ∈ m.map Prod.fst := by
  induction m with
  | nil =>
    simp only [planesInsert, List.mem_singleton] at h
    subst h; left; rfl
  | cons hd tl ih =>
    obtain ⟨k0, v0⟩ := hd
    simp only [planesInsert] at h
    split at h
    · simp only [List.mem_cons] at h
      rcases h with h | h | h
      · subst h; left; rfl
      · subst h; right; simp
      · right
        simp only [List.map_cons, List.mem_cons]
        right; exact List.mem_map_of_mem Prod.fst h
    · split at h
      · simp only [List.mem_cons] at h
        rcases h with h | h
        · subst h; right; simp
        · right
          simp only [List.map_cons, List.mem_cons]
          right; exact List.mem_map_of_mem Prod.fst h
      · simp only [List.mem_cons] at h
        rcases h with h | h
        · subst h; right; simp
        · rcases ih h with h1 | h1
          · left; exact h1
          · right; simp only [List.map_cons, List.mem_cons]; right; exact h1

theorem sorted_planesInsert {key : Nat × Option Nat} {root : IfCore}
    {port : L2Port} {m : List PlaneEntry}
    (hs : m.Pairwise (fun x y => planeKeyLt x.1 y.1 = true)) :
    (planesInsert key root port m).Pairwise
      (fun x y => planeKeyLt x.1 y.1 = true) := by
  induction m with
  | nil => simp [planesInsert]
  | cons hd tl ih =>
    obtain ⟨k0, v0⟩ := hd
    rw [List.pairwise_cons] at hs
    obtain ⟨hhd, htl⟩ := hs
    simp only [planesInsert]
    split
    · rename_i hlt
      refine List.Pairwise.cons ?_ (List.Pairwise.cons hhd htl)
      intro e he
      simp only [List.mem_cons] at he
      rcases he with he | he
      · subst he; exact hlt
      · exact planeKeyLt_trans hlt (hhd e he)
    · split
      · rename_i heq
        exact List.Pairwise.cons hhd htl
      · rename_i hlt heq
        refine List.Pairwise.cons ?_ (ih htl)
        intro e he
        rcases mem_keys_planesInsert he with h1 | h1
        · rw [h1]
          exact planeKeyLt_flip hlt (fun h => heq h)
        · rcases List.mem_map.mp h1 with ⟨q, hq, hq1⟩
          rw [← hq1]
          exact hhd q hq

theorem rootid_planesInsert {key : Nat × Option Nat} {root : IfCore}
    {port : L2Port} {m : List PlaneEntry}
    (hr : root.id = key.1) (hm : ∀ e ∈ m, e.2.1.id = e.1.1) :
    ∀ e ∈ planesInsert key root port m, e.2.1.id = e.1.1 := by
  induction m with
  | nil =>
    intro e he
    simp only [planesInsert, List.mem_singleton] at he
    subst he; exact hr
  | cons hd tl ih =>
    obtain ⟨k0, v0⟩ := hd
    have hhd := hm (k0, v0) (List.mem_cons_self _ _)
    have htl : ∀ e ∈ tl, e.2.1.id = e.1.1 :=
      fun e he => hm e (List.mem_cons_of_mem _ he)
    intro e he
    simp only [planesInsert] at he
    split at he
    · simp only [List.mem_cons] at he
      rcases he with he | he | he
      · subst he; exact hr
      · subst he; exact hhd
      · exact htl e he
    · split at he
      · simp only [List.mem_cons] at he
        rcases he with he | he
        · subst he; exact hhd
        · exact htl e he
      · simp only [List.mem_cons] at he
        rcases he with he | he
        · subst he; exact hhd
        · exact ih htl e he

theorem vlansGet_cons (k : Nat) (w : VlanM) (tl : List (Nat × VlanM))
    (vid : Nat) :
    vlansGet ((k, w) :: tl) vid
      = if k = vid then some w else vlansGet tl vid := by
  by_cases h : k = vid
  · simp [vlansGet, List.find?, h]
  · simp [vlansGet, List.find?, h]

theorem vlansGet_insert (v : VlanM) (m : List (Nat × VlanM)) (vid : Nat) :
    vlansGet (vlansInsert v m) vid
      = if vid = v.id then some v else vlansGet m vid := by
  induction m with
  | nil =>
    simp only [vlansInsert]
    rw [vlansGet_cons]
    by_cases h : vid = v.id
    · rw [if_pos (by omega), if_pos h]
    · rw [if_neg (by omega), if_neg h]
  | cons hd tl ih =>
    obtain ⟨k, w⟩ := hd
    simp only [vlansInsert]
    by_cases hk : k = v.id
    · rw [if_pos hk, vlansGet_cons, vlansGet_cons]
      by_cases h : vid = v.id
      · rw [if_pos (by omega), if_pos h]
      · rw [if_neg (by omega), if_neg h, if_neg (by omega)]
    · rw [if_neg hk, vlansGet_cons, ih, vlansGet_cons]
      by_cases h : k = vid
      · rw [if_pos h, if_neg (by omega), if_pos h]
      · rw [if_neg h]
        by_cases h2 : vid = v.id
        · rw [if_pos h2, if_pos h2]
        · rw [if_neg h2, if_neg h2, if_neg h]

theorem wf_vlansInsert {m : List (Nat × VlanM)} (v : VlanM)
    (hm : ∀ k w, vlansGet m k = some w → w.id = k) :
    ∀ k w, vlansGet (vlansInsert v m) k = some w → w.id = k := by
  intro k w h
  rw [vlansGet_insert] at h
  split at h
  · rename_i hk
    cases h
    omega
  · exact hm k w h

/-- Invariant of the grouping pass: the plane map is key-sorted, each
entry's stored root interface has the key's bridge id, every `Some` vlan
key resolves in the vlan map, and the vlan map maps ids to vlans carrying
that id. -/
structure CollectInv (st : List PlaneEntry × List (Nat × VlanM)) : Prop where
  sorted : st.1.Pairwise (fun x y => planeKeyLt x.1 y.1 = true)
  rootid : ∀ e ∈ st.1, e.2.1.id = e.1.1
  resolvable : ∀ e ∈ st.1, ∀ vid, e.1.2 = some vid →
    (vlansGet st.2 vid).isSome = true
  wf : ∀ k v, vlansGet st.2 k = some v → v.id = k

theorem collectInv_nil : CollectInv ([], []) := by
  refine ⟨List.Pairwise.nil, ?_, ?_, ?_⟩
  · intro e he; cases he
  · intro e he; cases he
  · intro k v h; simp [vlansGet, List.find?] at h

theorem collectInv_entries (bid : Nat) (root : IfCore) (hr : root.id = bid) :
    ∀ (entries : List (VlanM × L2Port))
      (st : List PlaneEntry × List (Nat × VlanM)), CollectInv st →
      CollectInv (entries.foldl
        (fun st e =>
          (planesInsert (bid, some e.1.id) root e.2 st.1,
           vlansInsert e.1 st.2)) st) := by
  intro entries
  induction entries with
  | nil => intro st h; exact h
  | cons e rest ih =>
    intro st h
    apply ih
    obtain ⟨hsorted, hrootid, hres, hwf⟩ := h
    refine ⟨sorted_planesInsert hsorted, rootid_planesInsert hr hrootid, ?_,
      wf_vlansInsert e.1 hwf⟩
    intro q hq vid hvid
    rw [vlansGet_insert]
    split
    · rfl
    · rename_i hne
      rcases mem_keys_planesInsert hq with h1 | h1
      · rw [h1] at hvid
        simp only at hvid
        cases hvid
        exact absurd rfl hne
      · rcases List.mem_map.mp h1 with ⟨q0, hq0, hq01⟩
        have := hres q0 hq0 vid (by rw [hq01]; exact hvid)
        rcases Option.isSome_iff_exists.mp this with ⟨w, hw⟩
        rw [hw]
        rfl

theorem collectInv_step (gen : InterfaceM → String)
    (st : List PlaneEntry × List (Nat × VlanM)) (i : InterfaceM)
    (h : CollectInv st) : CollectInv (l2CollectIf gen st i) := by
  unfold l2CollectIf
  cases hext : i.core.external with
  | none => exact h
  | some port =>
    simp only
    split
    · obtain ⟨hsorted, hrootid, hres, hwf⟩ := h
      refine ⟨sorted_planesInsert hsorted, rootid_planesInsert rfl hrootid,
        ?_, hwf⟩
      intro q hq vid hvid
      rcases mem_keys_planesInsert hq with h1 | h1
      · rw [h1] at hvid
        cases hvid
      · rcases List.mem_map.mp h1 with ⟨q0, hq0, hq01⟩
        exact hres q0 hq0 vid (by rw [hq01]; exact hvid)
    · exact collectInv_entries i.root.id i.root rfl _ st h

theorem collectInv_foldl (gen : InterfaceM → String) :
    ∀ (ifs : List InterfaceM) (st : List PlaneEntry × List (Nat × VlanM)),
      CollectInv st → CollectInv (ifs.foldl (l2CollectIf gen) st) := by
  intro ifs
  induction ifs with
  | nil => intro st h; exact h
  | cons i rest ih =>
    intro st h
    exact ih _ (collectInv_step gen st i h)

theorem forall2_imp_of_mem {α β : Type} {R R2 : α → β → Prop} :
    ∀ {l1 : List α} {l2 : List β}, List.Forall₂ R l1 l2 →
      (∀ a ∈ l1, ∀ b, R a b → R2 a b) → List.Forall₂ R2 l1 l2 := by
  intro l1 l2 h
  induction h with
  | nil => intro _; exact List.Forall₂.nil
  | cons hr _ ih =>
    intro himp
    refine List.Forall₂.cons (himp _ (List.mem_cons_self _ _) _ hr) ?_
    exact ih fun a ha b hb => himp a (List.mem_cons_of_mem _ ha) b hb

theorem chain_transfer {α β : Type} {R : α → β → Prop} {S : α → α → Prop}
    {T : β → β → Prop} :
    ∀ {l1 : List α} {l2 : List β}, List.Forall₂ R l1 l2 →
      (∀ a b a2 b2, R a a2 → R b b2 → S a b → T a2 b2) →
      l1.Chain' S → l2.Chain' T := by
  intro l1 l2 hf himp hchain
  induction hf with
  | nil => exact List.chain'_nil
  | cons hr hf2 ih =>
    cases hf2 with
    | nil => exact List.chain'_singleton _
    | cons hr2 hf3 =>
      rw [List.chain'_cons] at hchain
      rw [List.chain'_cons]
      refine ⟨himp _ _ _ _ hr hr2 hchain.1, ?_⟩
      exact ih hchain.2

/-- C7 (amended): the planes from `L2Setup::new` come out in the strict
order of the grouping `BTreeMap` key — representative (bridge/root) port
id first, then the VLAN inventory id with tag-free (`None`) planes first;
not VLAN id first as the claim states. -/
theorem C7_plane_order_amended (device : DeviceM) (gen : InterfaceM → String) :
    (L2Setup.new device gen).planes.Chain' (fun p q =>
      p.root_port.id < q.root_port.id ∨
      (p.root_port.id = q.root_port.id ∧
        optVlanLt (p.vlan.map VlanM.id) (q.vlan.map VlanM.id) = true)) := by
  have hinv := collectInv_foldl gen device.interfaces ([], []) collectInv_nil
  have hlink := assignTags_link
    (device.interfaces.foldl (l2CollectIf gen) ([], [])).2
    (device.interfaces.foldl (l2CollectIf gen) ([], [])).1
    (usedVlansOf (device.interfaces.foldl (l2CollectIf gen) ([], [])).1
      (device.interfaces.foldl (l2CollectIf gen) ([], [])).2)
  have hlink2 : List.Forall₂
      (fun (e : PlaneEntry) (p : L2Plane) =>
        p.root_port.id = e.1.1 ∧ p.vlan.map VlanM.id = e.1.2)
      (device.interfaces.foldl (l2CollectIf gen) ([], [])).1
      (L2Setup.new device gen).planes := by
    apply forall2_imp_of_mem hlink
    intro e he p hp
    obtain ⟨_, hroot, hvlan⟩ := hp
    constructor
    · rw [hroot]
      exact hinv.rootid e he
    · cases hk : e.1.2 with
      | none => rw [hvlan, hk]; rfl
      | some vid =>
        have := hinv.resolvable e he vid hk
        rcases Option.isSome_iff_exists.mp this with ⟨w, hw⟩
        rw [hvlan, hk]
        simp only [Option.some_bind, hw]
        simp [hinv.wf vid w hw]
  apply chain_transfer hlink2 ?_ hinv.sorted.chain'
  intro e1 e2 p q hp hq hS
  rw [planeKeyLt_iff] at hS
  rcases hS with hS | ⟨hSe, hSv⟩
  · left
    rw [hp.1, hq.1]
    exact hS
  · right
    constructor
    · rw [hp.1, hq.1]; exact hSe
    · rw [hp.2, hq.2]; exact hSv

/-- The `Ord for L2Plane` key of the source (l2/mod.rs lines 200-209), as
a non-strict comparison: `(vlan.map(id), root_port.id, vlan_id)`
lexicographically. -/
def l2PlaneCmpLe (p q : L2Plane) : Bool :=
  optVlanLt (p.vlan.map VlanM.id) (q.vlan.map VlanM.id) ||
  (p.vlan.map VlanM.id == q.vlan.map VlanM.id &&
    (p.root_port.id < q.root_port.id ||
      (p.root_port.id == q.root_port.id && p.vlan_id ≤ q.vlan_id)))

/-- C7 counterexample: on `deviceW3` (a tagged plane on interface 1 and a
tag-free plane on interface 2) the output planes are NOT non-decreasing
under the claimed key (VLAN id, representative port id, assigned tag):
the adjacent pair at indices 0 and 1 is decreasing, because the first
plane has VLAN id `some 5`, the second `none`, and `none < some` in the
claimed order. -/
theorem C7_plane_order_counterexample :
    ∃ h : 1 < (L2Setup.new deviceW3 (fun i => i.core.name)).planes.length,
      l2PlaneCmpLe
        ((L2Setup.new deviceW3 (fun i => i.core.name)).planes.get
          ⟨0, by omega⟩)
        ((L2Setup.new deviceW3 (fun i => i.core.name)).planes.get ⟨1, h⟩)
        = false :=
  ⟨by decide, by decide⟩

/-! ## Target-configuration synthesizer
(src/backend/src/device/ros/mod.rs, `BaseDeviceDataTarget`)

The resource maps (`BTreeMap` / keyed collections of the `mikrotik_model`
crate) are embedded as association lists with entry-or-insert semantics
(`alUpsert`); map contents, not list order, carry the meaning. -/

def alGet {κ ν : Type} [DecidableEq κ] (m : List (κ × ν)) (k : κ) :
    Option ν :=
  (m.find? (fun p => p.1 = k)).map Prod.snd

/-- `map.entry(k).or_insert(dflt)` followed by mutating the entry by `f`. -/
def alUpsert {κ ν : Type} [DecidableEq κ] (k : κ) (f : ν → ν) (dflt : ν) :
    List (κ × ν) → List (κ × ν)
  | [] => [(k, f dflt)]
  | (k0, v0) :: rest =>
    if k0 = k then (k0, f v0) :: rest else (k0, v0) :: alUpsert k f dflt rest

/-- `BTreeSet<AsciiString>` as a sorted, duplicate-free list. -/
def strInsertSorted (s : String) : List String → List String
  | [] => [s]
  | a :: rest =>
    if s < a then s :: a :: rest
    else if s = a then a :: rest
    else a :: strInsertSorted s rest

def strSetOf (l : List String) : List String :=
  l.foldl (fun acc s => strInsertSorted s acc) []

/-- Insert into a keyed set collection (`entry(key).or_default()` on a
unit-valued map). -/
def insertIfAbsent {κ : Type} [DecidableEq κ] (k : κ) (m : List κ) :
    List κ :=
  if k ∈ m then m else m ++ [k]

/-- `SetupError` (lines 89-103). -/
inductive SetupError
  | routerboardNotDefined
  | noPortsFound (model : String)
  | portNotFound (port : PhysicalPortId)
  | missingPrefixOnIpAddress (ip : IpNetM)
  | missingAddressOnPrefix (pfxId : Nat)
  deriving DecidableEq, Repr

/-- A run outcome: a returned `SetupError`, or one of the panic sites
(`todo!()` for VxLan/Caps ports in `setup_l2`, the
`panic!("Cannot create tagged port on switch without vlan")` arms in
`setup_single_switch_without_vlan`). -/
inductive RunErr
  | setup (e : SetupError)
  | todoVxlan
  | todoCaps
  | panicSingleSwitch
  deriving DecidableEq, Repr

/-- `SwitchVlanConcept`. -/
inductive SwitchVlanConcept
  | oneBridge
  deriving DecidableEq, Repr

/-- `MappedPlane`. -/
inductive MappedPlane
  | tagged (if_name : String) (vid : Nat)
  | untagged (if_name : String)
  deriving DecidableEq, Repr

inductive BridgeProtocolMode
  | rstp
  | mstp
  deriving DecidableEq, Repr

inductive VlanFrameTypes
  | admitAll
  | admitOnlyUntaggedAndPriorityTagged
  | admitOnlyVlanTagged
  deriving DecidableEq, Repr

inductive PoeOut
  | autoOn
  | off
  deriving DecidableEq, Repr

inductive PossibleRangeDash
  | single (v : Nat)
  | range (start stop : Nat)
  deriving DecidableEq, Repr

/-- `InterfaceBridgeCfg` fields touched by the synthesizer; pristine
values of the external model crate are abstracted by `mkDefault`. -/
structure BridgeCfg where
  vlan_filtering : Bool
  ingress_filtering : Option Bool
  protocol_mode : BridgeProtocolMode
  deriving DecidableEq, Repr

def BridgeCfg.mkDefault : BridgeCfg :=
  { vlan_filtering := false, ingress_filtering := none,
    protocol_mode := .rstp }

/-- `InterfaceBridgePortCfg` fields touched by the synthesizer; an unset
`pvid` stands for the external crate's pristine value. -/
structure BridgePortCfg where
  ingress_filtering : Bool
  frame_types : Option VlanFrameTypes
  pvid : Option Nat
  deriving DecidableEq, Repr

def BridgePortCfg.mkDefault : BridgePortCfg :=
  { ingress_filtering := false, frame_types := none, pvid := none }

/-- `InterfaceEthernetCfg` fields touched: the assigned name and the PoE
output mode. -/
structure EthCfg where
  name : String
  poe_out : Option PoeOut
  deriving DecidableEq, Repr

/-- `IpDhcpClientCfg` (lines 579-592). -/
structure IpDhcpClientCfg where
  interface : String
  add_default_route : Bool
  default_route_distance : Option Nat
  use_peer_dns : Bool
  use_peer_ntp : Bool
  deriving DecidableEq, Repr

/-- Address entry value: the interface an address is assigned to. -/
structure IpAddressCfg where
  interface : String
  deriving DecidableEq, Repr

/-- `ip/dhcp-server` entry value. -/
structure DhcpServerCfg where
  interface : String
  address_pool : String
  deriving DecidableEq, Repr

/-- `ip/dhcp-server/network` entry value (gateway/dns as sets). -/
structure DhcpNetworkCfg where
  gateway : List Nat
  dns_server : List Nat
  deriving DecidableEq, Repr

inductive RoutingRedistribute
  | connected
  | static
  deriving DecidableEq, Repr

/-- `routing/ospf/instance` entry value; `router_id` keeps the IPv4 value
(the source renders it dotted-decimal). -/
structure OspfInstanceCfg where
  redistribute : List RoutingRedistribute
  router_id : Option Nat
  version : Nat
  deriving DecidableEq, Repr

def OspfInstanceCfg.mkDefault : OspfInstanceCfg :=
  { redistribute := [], router_id := none, version := 2 }

/-- `routing/ospf/interface-template` entry value. -/
structure OspfInterfaceCfg where
  interfaces : List String
  use_bfd : Option Bool
  deriving DecidableEq, Repr

def OspfInterfaceCfg.mkDefault : OspfInterfaceCfg :=
  { interfaces := [], use_bfd := none }

/-- `interface/vlan` entry value: parent interface and vlan id. -/
structure VlanIfCfg where
  interface : String
  vlan_id : Nat
  deriving DecidableEq, Repr

/-- The mutable target state `BaseDeviceDataTarget`, restricted to the
resources the embedded functions touch.  `bridge_vlan` and `vxlan_vteps`
are keyed sets (`by_id` resources with unit values); `ipv4_pool` stores
the numeric ranges the source renders as `"start-end"` strings. -/
structure DState where
  identity : String
  ethernet : List (String × EthCfg)
  bridge : List (String × BridgeCfg)
  bridge_port : List ((String × String) × BridgePortCfg)
  bridge_vlan : List (String × List String × List String × List PossibleRangeDash)
  vlan : List (String × VlanIfCfg)
  ipv4_address : List ((Nat × Nat) × IpAddressCfg)
  ipv6_address : List ((Nat × Nat) × IpAddressCfg)
  dhcp_client : List (String × IpDhcpClientCfg)
  dhcp_server : List (String × DhcpServerCfg)
  dhcp_server_network : List ((Nat × Nat) × DhcpNetworkCfg)
  ipv4_pool : List (String × List (Nat × Nat))
  ospf_instance : List (String × OspfInstanceCfg)
  ospf_area : List (String × String)
  ospf_interface : List (String × OspfInterfaceCfg)
  vxlan : List (String × Nat)
  vxlan_vteps : List (String × IpAddrM)
  deriving DecidableEq, Repr

/-- `DEFAULT_BRIDGE_NAME`. -/
def DEFAULT_BRIDGE_NAME : String := "switch"

/-- `CAPS_BRIDGE_NAME`. -/
def CAPS_BRIDGE_NAME : String := "bridge-caps"

/-- `set_identity`. -/
def set_identity (st : DState) (name : String) : DState :=
  { st with identity := name }

/-- `get_ethernet_port` followed by `ethernet_port.name = name`: ports
without a default name are skipped (`Ok(None)`), a declared port missing
from the hardware-fact table is `PortNotFound`. -/
def setEthName (st : DState) (pid : PhysicalPortId) (name : String) :
    Except RunErr DState :=
  match pid.default_name with
  | none => .ok st
  | some dn =>
    match alGet st.ethernet dn with
    | none => .error (.setup (.portNotFound pid))
    | some _ =>
      let eth := alUpsert dn (fun e => { e with name := name })
        { name := "", poe_out := none } st.ethernet
      .ok { st with ethernet := eth }

/-- `get_ethernet_port` followed by `ethernet_port.poe_out = ...`
(the PoE pass of `generate_from`). -/
def setEthPoe (st : DState) (pid : PhysicalPortId) (poe : Bool) :
    Except RunErr DState :=
  match pid.default_name with
  | none => .ok st
  | some dn =>
    match alGet st.ethernet dn with
    | none => .error (.setup (.portNotFound pid))
    | some _ =>
      let eth := alUpsert dn
        (fun e =>
          { e with
            poe_out := some (if poe then PoeOut.autoOn else PoeOut.off) })
        { name := "", poe_out := none } st.ethernet
      .ok { st with ethernet := eth }

/-- `set_ip_address` (lines 367-398). -/
def set_ip_address (st : DState) (ip : IpNetM) (if_name : String) : DState :=
  match ip with
  | .v4 a l =>
    let m := alUpsert (a, l) (fun c => { c with interface := if_name })
      { interface := "" } st.ipv4_address
    { st with ipv4_address := m }
  | .v6 a l =>
    let m := alUpsert (a, l) (fun c => { c with interface := if_name })
      { interface := "" } st.ipv6_address
    { st with ipv6_address := m }

/-- `set_loopback_ip`: insert (overwriting) a host route on `lo`. -/
def set_loopback_ip (st : DState) (ip : IpAddrM) : DState :=
  match ip with
  | .v4 a =>
    let m := alUpsert (a, 32) (fun _ => { interface := "lo" })
      { interface := "lo" } st.ipv4_address
    { st with ipv4_address := m }
  | .v6 a =>
    let m := alUpsert (a, 128) (fun _ => { interface := "lo" })
      { interface := "lo" } st.ipv6_address
    { st with ipv6_address := m }

/-- `enable_dhcp_client` (lines 579-592): `entry.or_insert` with the
fixed client configuration (note the empty `interface` field of the
inserted value, as in the source). -/
def enable_dhcp_client (st : DState) (if_name : String) : DState :=
  let m := alUpsert if_name (fun c => c)
    { interface := "", add_default_route := true,
      default_route_distance := some 10, use_peer_dns := true,
      use_peer_ntp := false } st.dhcp_client
  { st with dhcp_client := m }

/-- Occurrences of an ethernet port name across all planes — the
`plane_count_of_port` tally of `setup_l2` (lines 162-172). -/
def planePortNames (p : L2Plane) : List String :=
  p.ports.filterMap (fun port =>
    match port with
    | .taggedEthernet n _ => some n
    | .untaggedEthernet n _ => some n
    | .vxLan _ => none
    | .caps => none)

def portPlaneCount (planes : List L2Plane) (n : String) : Nat :=
  (planes.flatMap planePortNames).count n

/-- The per-plane port pass of `setup_l2` (lines 178-210): rename each
ethernet port, collect the ports; a VxLan or Caps port hits a `todo!()`
panic. -/
def renamePortsGo (st : DState) (acc : List L2Port) :
    List L2Port → Except RunErr (DState × List L2Port)
  | [] => .ok (st, acc)
  | port :: rest =>
    match port with
    | .taggedEthernet name pid =>
      match setEthName st pid name with
      | .error e => .error e
      | .ok st2 => renamePortsGo st2 (acc ++ [port]) rest
    | .untaggedEthernet name pid =>
      match setEthName st pid name with
      | .error e => .error e
      | .ok st2 => renamePortsGo st2 (acc ++ [port]) rest
    | .vxLan _ => .error .todoVxlan
    | .caps => .error .todoCaps

/-- The plane loop of `setup_l2` (lines 174-228): planes whose rebuilt
port list is a single untagged ethernet port appearing in exactly one
plane are mapped directly (the `addresses`/`enable_dhcp` locals are dead:
they stay `[]`/`false`); every other plane is collected into
`switch_planes`. -/
def setup_l2Go (countSrc : List L2Plane) (st : DState)
    (mapped : List (IfCore × MappedPlane)) (switch : List L2Plane) :
    List L2Plane →
    Except RunErr (DState × List (IfCore × MappedPlane) × List L2Plane)
  | [] => .ok (st, mapped, switch)
  | plane :: rest =>
    match renamePortsGo st [] plane.ports with
    | .error e => .error e
    | .ok (st2, ports) =>
      match ports with
      | [L2Port.untaggedEthernet name _] =>
        if portPlaneCount countSrc name = 1 then
          let addresses : List IpNetM := []
          let enable_dhcp := false
          let st3 := if addresses.isEmpty && enable_dhcp then
              enable_dhcp_client st2 name
            else st2
          let st4 := addresses.foldl (fun s a => set_ip_address s a name) st3
          setup_l2Go countSrc st4
            (mapped ++ [(plane.root_port, .untagged name)]) switch rest
        else
          setup_l2Go countSrc st2 mapped (switch ++ [plane]) rest
      | _ =>
        setup_l2Go countSrc st2 mapped (switch ++ [plane]) rest

/-- `setup_single_switch_without_vlan` (lines 318-350): one non-VLAN
bridge; a tagged / VxLan / Caps port panics. -/
def single_switch_ports (st : DState) :
    List L2Port → Except RunErr DState
  | [] => .ok st
  | port :: rest =>
    match port with
    | .taggedEthernet _ _ => .error .panicSingleSwitch
    | .untaggedEthernet name _ =>
      let m := alUpsert (DEFAULT_BRIDGE_NAME, name)
        (fun bp =>
          { bp with
            frame_types :=
              some VlanFrameTypes.admitOnlyUntaggedAndPriorityTagged })
        BridgePortCfg.mkDefault st.bridge_port
      single_switch_ports { st with bridge_port := m } rest
    | .vxLan _ => .error .panicSingleSwitch
    | .caps => .error .panicSingleSwitch

def setup_single_switch_without_vlan (st : DState) (single_plane : L2Plane)
    (mapped : List (IfCore × MappedPlane)) :
    Except RunErr (DState × List (IfCore × MappedPlane)) :=
  let br := alUpsert DEFAULT_BRIDGE_NAME
    (fun b =>
      { b with
        vlan_filtering := false,
        ingress_filtering := some false,
        protocol_mode := .rstp })
    BridgeCfg.mkDefault st.bridge
  let st := { st with bridge := br }
  let mapped := mapped ++
    [(single_plane.root_port, MappedPlane.untagged DEFAULT_BRIDGE_NAME)]
  match single_switch_ports st single_plane.ports with
  | .error e => .error e
  | .ok st => .ok (st, mapped)

/-- The tally pass of `setup_big_bridge` (lines 266-287): one plane's
ports folded into the `(tags_of_port, ports_of_vlan)` pair of maps. -/
def bigBridgeTally
    (ms : List (String × (Option Nat × List Nat))
            × List (Nat × (List String × List String)))
    (plane : L2Plane) :
    List (String × (Option Nat × List Nat))
      × List (Nat × (List String × List String)) :=
  plane.ports.foldl
    (fun ms port =>
      match port with
      | .taggedEthernet name _ =>
        (alUpsert name (fun v => (v.1, v.2 ++ [plane.vlan_id]))
          (none, []) ms.1,
         alUpsert plane.vlan_id (fun v => (v.1, v.2 ++ [name]))
          ([], []) ms.2)
      | .untaggedEthernet name _ =>
        (alUpsert name (fun v => (some plane.vlan_id, v.2))
          (none, []) ms.1,
         alUpsert plane.vlan_id (fun v => (v.1 ++ [name], v.2))
          ([], []) ms.2)
      | .vxLan _ => ms
      | .caps => ms)
    ms

/-- `setup_big_bridge` (lines 254-316). -/
def setup_big_bridge (st : DState) (switch_planes : List L2Plane)
    (mapped : List (IfCore × MappedPlane)) :
    DState × List (IfCore × MappedPlane) :=
  let br := alUpsert DEFAULT_BRIDGE_NAME
    (fun b => { b with vlan_filtering := true, protocol_mode := .mstp })
    BridgeCfg.mkDefault st.bridge
  let st := { st with bridge := br }
  let mapped := mapped ++ switch_planes.map (fun plane =>
    (plane.root_port,
     MappedPlane.tagged DEFAULT_BRIDGE_NAME plane.vlan_id))
  let maps := switch_planes.foldl bigBridgeTally ([], [])
  let st := maps.1.foldl
    (fun s (e : String × (Option Nat × List Nat)) =>
      let m := alUpsert (DEFAULT_BRIDGE_NAME, e.1)
        (fun bp =>
          match e.2.1 with
          | some untagged_id =>
            { bp with
              ingress_filtering := true,
              pvid := some untagged_id,
              frame_types := some (if e.2.2.isEmpty then
                  VlanFrameTypes.admitOnlyUntaggedAndPriorityTagged
                else VlanFrameTypes.admitAll) }
          | none =>
            { bp with
              ingress_filtering := true,
              frame_types := some VlanFrameTypes.admitOnlyVlanTagged })
        BridgePortCfg.mkDefault s.bridge_port
      { s with bridge_port := m })
    st
  let st := maps.2.foldl
    (fun s (e : Nat × (List String × List String)) =>
      let m := insertIfAbsent
        (DEFAULT_BRIDGE_NAME, strSetOf e.2.2, strSetOf e.2.1,
          [PossibleRangeDash.single e.1])
        s.bridge_vlan
      { s with bridge_vlan := m })
    st
  (st, mapped)

def planeAllUntagged (plane : L2Plane) : Bool :=
  plane.ports.all (fun port =>
    match port with
    | .taggedEthernet _ _ => false
    | .untaggedEthernet _ _ => true
    | .vxLan _ => false
    | .caps => false)

/-- `setup_l2` (lines 156-252). -/
def setup_l2 (st : DState) (setup : L2Setup) (concept : SwitchVlanConcept)
    (mapped : List (IfCore × MappedPlane)) :
    Except RunErr (DState × List (IfCore × MappedPlane)) :=
  match setup_l2Go setup.planes st mapped [] setup.planes with
  | .error e => .error e
  | .ok (st1, mapped1, switch_planes) =>
    if switch_planes.isEmpty then .ok (st1, mapped1)
    else
      match (if switch_planes.all planeAllUntagged then switch_planes
        else []) with
      | [single_plane] =>
        setup_single_switch_without_vlan st1 single_plane mapped1
      | _ =>
        match concept with
        | .oneBridge => .ok (setup_big_bridge st1 switch_planes mapped1)

/-! ## The addressing, OSPF and WLAN passes of `generate_from` -/

/-- `cleanup_name` (lines 798-800). -/
def cleanup_name (s : String) : String :=
  String.map
    (fun c => if c = '.' ∨ c = '/' ∨ c = '+' ∨ c = ':' then '_' else c) s

/-- `BTreeSet<Nat>` insertion, sorted and duplicate-free. -/
def natInsertSorted (v : Nat) : List Nat → List Nat
  | [] => [v]
  | a :: rest =>
    if v < a then v :: a :: rest
    else if v = a then a :: rest
    else a :: natInsertSorted v rest

/-- `if_of_mapped_plane` (lines 511-529): the interface name carrying a
mapped plane, creating the vlan interface on first use for tagged
planes. -/
def if_of_mapped_plane (st : DState) (plane : MappedPlane) :
    DState × String :=
  match plane with
  | .tagged if_name vid =>
    let vlan_port_name := if_name ++ "-" ++ toString vid
    match alGet st.vlan vlan_port_name with
    | some _ => (st, vlan_port_name)
    | none =>
      let m := st.vlan
        ++ [(vlan_port_name, { interface := if_name, vlan_id := vid })]
      ({ st with vlan := m }, vlan_port_name)
  | .untagged if_name => (st, if_name)

/-- One `ip_address` iteration of the `setup_ip_addresses` loop
(lines 608-676): assign the address, then, when a DHCP server was
requested, resolve the prefix bookkeeping (first missing link reported as
the error) and wire server, network and pool from the explicit DHCP
ranges or the gap finder.  The state mutated before an error is kept, as
the source mutates `&mut self` in place. -/
def setupIpStep (st : DState) (if_name : String) (dhcp_server : Bool)
    (ip_idx : Nat) (ip_address : IpAddressM) : DState × Option SetupError :=
  match ip_address.net with
  | none => (st, none)
  | some ip =>
    let st := set_ip_address st ip if_name
    if dhcp_server then
      match ip_address.pfx with
      | none => (st, some (SetupError.missingPrefixOnIpAddress ip))
      | some pfx =>
        match pfx.net with
        | none => (st, some (SetupError.missingAddressOnPrefix pfx.id))
        | some pfxNet =>
          match ip, pfxNet with
          | IpNetM.v4 ipa _ipl, IpNetM.v4 neta netl =>
            let rf := pfx.ranges.foldl
              (fun (acc : List (Nat × Nat) × DeltaMap) range =>
                match range.start, range.stop with
                | some (IpAddrM.v4 s), some (IpAddrM.v4 e) =>
                  let ex := if range.is_dhcp then acc.1 ++ [(s, e)]
                    else acc.1
                  (ex, GapFinder.reserve_ipv4_range acc.2 (s, e))
                | _, _ => acc)
              ([], [])
            let dhcp_ranges :=
              if rf.1.isEmpty then
                let gf := pfx.children.foldl
                  (fun gf c =>
                    match c with
                    | some (IpNetM.v4 a l) =>
                      GapFinder.reserve_ipv4_net gf ⟨a, l⟩
                    | _ => gf)
                  rf.2
                let gf := pfx.ips.foldl
                  (fun gf i =>
                    match i with
                    | some (IpAddrM.v4 a) => GapFinder.reserve_ipv4 gf a
                    | _ => gf)
                  gf
                GapFinder.find_gaps_ipv4 gf ⟨neta, netl⟩
              else rf.1
            if dhcp_ranges.isEmpty then (st, none)
            else
              let suffix := if ip_idx = 0 then if_name
                else if_name ++ "-" ++ toString ip_idx
              let server_name := "dhcp-" ++ suffix
              let sv := alUpsert server_name
                (fun s =>
                  { s with
                    interface := if_name, address_pool := server_name })
                { interface := "", address_pool := "" } st.dhcp_server
              let nw := alUpsert (neta, netl)
                (fun n =>
                  { n with
                    gateway := natInsertSorted ipa n.gateway,
                    dns_server := natInsertSorted ipa n.dns_server })
                { gateway := [], dns_server := [] } st.dhcp_server_network
              let pool := alUpsert server_name (fun _ => dhcp_ranges) []
                st.ipv4_pool
              let st := { st with dhcp_server := sv }
              let st := { st with dhcp_server_network := nw }
              let st := { st with ipv4_pool := pool }
              (st, none)
          | _, _ => (st, none)
    else (st, none)

/-- The `ips.iter().enumerate()` loop of `setup_ip_addresses`, stopping
at the first error but keeping the state mutated so far. -/
def setupIpList (if_name : String) (dhcp_server : Bool) :
    Nat → DState → List IpAddressM → DState × Option SetupError
  | _, st, [] => (st, none)
  | ip_idx, st, ip :: rest =>
    match setupIpStep st if_name dhcp_server ip_idx ip with
    | (st1, some e) => (st1, some e)
    | (st1, none) => setupIpList if_name dhcp_server (ip_idx + 1) st1 rest

/-- One mapped-plane iteration of `setup_ip_addresses` (lines 598-677). -/
def setupIpsIf (st : DState) (if_access : IfCore) (plane : MappedPlane) :
    DState × Option SetupError :=
  if if_access.ips.isEmpty then
    if if_access.enable_dhcp_client then
      let r := if_of_mapped_plane st plane
      (enable_dhcp_client r.1 r.2, none)
    else (st, none)
  else
    let r := if_of_mapped_plane st plane
    setupIpList r.2 if_access.enable_dhcp_server 0 r.1 if_access.ips

/-- `setup_ip_addresses` (lines 594-680): `Result<(), SetupError>` on a
`&mut self` receiver, modelled as the final state paired with the first
error, if any. -/
def setup_ip_addresses :
    DState → List (IfCore × MappedPlane) → DState × Option SetupError
  | st, [] => (st, none)
  | st, pm :: rest =>
    match setupIpsIf st pm.1 pm.2 with
    | (st1, some e) => (st1, some e)
    | (st1, none) => setup_ip_addresses st1 rest

/-- `setup_ospf` (lines 531-577).  The OSPF port set is collected through
`if_of_mapped_plane`, which may create vlan interfaces as a side
effect. -/
def setup_ospf (st : DState) (device : DeviceM)
    (planes : List (IfCore × MappedPlane)) : DState :=
  match device.primary_ip_v4 with
  | none => st
  | some router_id =>
    let acc := planes.foldl
      (fun (acc : DState × List String) pm =>
        if pm.1.use_ospf then
          let r := if_of_mapped_plane acc.1 pm.2
          (r.1, strInsertSorted r.2 acc.2)
        else acc)
      (st, [])
    let st := acc.1
    let ports := acc.2
    if ports.isEmpty then st
    else
      let oi := alUpsert "default-v2"
        (fun i =>
          { i with
            redistribute :=
              [RoutingRedistribute.connected, RoutingRedistribute.static],
            router_id := some router_id,
            version := 2 })
        OspfInstanceCfg.mkDefault st.ospf_instance
      let oi := alUpsert "default-v3"
        (fun i =>
          { i with
            redistribute :=
              [RoutingRedistribute.connected, RoutingRedistribute.static],
            router_id := some router_id,
            version := 3 })
        OspfInstanceCfg.mkDefault oi
      let oa := alUpsert "backbone-v2" (fun _ => "default-v2") "" st.ospf_area
      let oa := alUpsert "backbone-v3" (fun _ => "default-v3") "" oa
      let oif := alUpsert "backbone-v2"
        (fun c => { c with interfaces := ports, use_bfd := some false })
        OspfInterfaceCfg.mkDefault st.ospf_interface
      let oif := alUpsert "backbone-v3"
        (fun c => { c with interfaces := ports, use_bfd := some false })
        OspfInterfaceCfg.mkDefault oif
      let st := { st with ospf_instance := oi }
      let st := { st with ospf_area := oa }
      let st := { st with ospf_interface := oif }
      st

/-- `setup_vxlan` (lines 451-486).  `kebab` stands for the external
`convert_case` crate's kebab conversion applied to the formatted name. -/
def setup_vxlan (st : DState) (kebab : String → String) (vx : VxlanM)
    (my_ip : Nat) : DState :=
  match vx.name, vx.vni with
  | some nm, some vni =>
    let name := kebab ("vxlan-" ++ cleanup_name nm)
    let bp := alUpsert (CAPS_BRIDGE_NAME, name) (fun b => b)
      BridgePortCfg.mkDefault st.bridge_port
    let bv := insertIfAbsent
      (CAPS_BRIDGE_NAME, [name], [], [PossibleRangeDash.range 1 4094])
      st.bridge_vlan
    let vxm := alUpsert name (fun _ => vni) vni st.vxlan
    let st := { st with bridge_port := bp }
    let st := { st with bridge_vlan := bv }
    let st := { st with vxlan := vxm }
    (vx.vteps.filter (fun ip => ip ≠ IpAddrM.v4 my_ip)).foldl
      (fun s a =>
        let m := insertIfAbsent (name, a) s.vxlan_vteps
        { s with vxlan_vteps := m })
      st
  | _, _ => st

/-- `setup_wlan_ap` (lines 425-449).  The source's `HashSet`s are
modelled as duplicate-free lists in first-insertion order. -/
def setup_wlan_ap (st : DState) (device : DeviceM)
    (kebab : String → String) : DState :=
  match device.wlan_ap_of with
  | none => st
  | some wlan_group =>
    let bc := alUpsert CAPS_BRIDGE_NAME
      (fun b => { b with vlan_filtering := true, protocol_mode := .mstp })
      BridgeCfg.mkDefault st.bridge
    let st := { st with bridge := bc }
    match device.primary_ip_v4 with
    | none => st
    | some my_ip =>
      let vlans := match wlan_group.mgmt_vlan with
        | some v => insertIfAbsent v []
        | none => []
      let vlans := wlan_group.wlan.foldl
        (fun acc w =>
          match w.vlan with
          | some v => insertIfAbsent v acc
          | none => acc)
        vlans
      let vxlans := (vlans.filterMap WVlanM.vxlan).foldl
        (fun acc v => insertIfAbsent v acc) []
      vxlans.foldl (fun s v => setup_vxlan s kebab v my_ip) st

/-- The PoE pass of `generate_from` (lines 408-418): for each interface
with an external port, look the hardware port up (`?` on
`PortNotFound`) and set its PoE output mode. -/
def poeLoop : DState → List InterfaceM → Except RunErr DState
  | st, [] => .ok st
  | st, port :: rest =>
    match port.core.external with
    | none => poeLoop st rest
    | some pid =>
      match setEthPoe st pid port.core.enable_poe with
      | .error e => .error e
      | .ok st1 => poeLoop st1 rest

/-- `generate_from` (lines 399-423).  `gen` stands for the
`EndpointNameGenerator` callback handed to `L2Setup::new`, `kebab` for
the external kebab-case conversion used by `setup_vxlan`.  Note
line 419: the `Result` of `setup_ip_addresses` is discarded (no `?`),
so only its state effect survives. -/
def generate_from (st : DState) (device : DeviceM)
    (gen : InterfaceM → String) (kebab : String → String) :
    Except RunErr DState :=
  let st := set_identity st device.name
  let st := match device.loopback_ip.bind IpAddressM.addr with
    | some ip => set_loopback_ip st ip
    | none => st
  let l2 := L2Setup.new device gen
  match setup_l2 st l2 SwitchVlanConcept.oneBridge [] with
  | .error e => .error e
  | .ok (st, mapped_planes) =>
    match poeLoop st device.interfaces with
    | .error e => .error e
    | .ok st =>
      let st := (setup_ip_addresses st mapped_planes).1
      let st := setup_ospf st device mapped_planes
      let st := setup_wlan_ap st device kebab
      .ok st

/-! ### The single-switch panic branches are unreachable through
`setup_l2` -/

theorem single_switch_ports_ok (ports : List L2Port) :
    ∀ st : DState,
      (∀ port ∈ ports, (match port with
        | L2Port.taggedEthernet _ _ => false
        | L2Port.untaggedEthernet _ _ => true
        | L2Port.vxLan _ => false
        | L2Port.caps => false) = true) →
      ∃ st2, single_switch_ports st ports = .ok st2 := by
  induction ports with
  | nil => intro st _; exact ⟨st, rfl⟩
  | cons port rest ih =>
    intro st hall
    have hport := hall port (List.mem_cons_self _ _)
    cases port with
    | untaggedEthernet name pid =>
      simp only [single_switch_ports]
      exact ih _ fun p hp => hall p (List.mem_cons_of_mem _ hp)
    | taggedEthernet name pid => simp at hport
    | vxLan name => simp at hport
    | caps => simp at hport

theorem setup_single_switch_ok (st : DState) (plane : L2Plane)
    (mapped : List (IfCore × MappedPlane))
    (h : planeAllUntagged plane = true) :
    ∃ r, setup_single_switch_without_vlan st plane mapped = .ok r := by
  rw [planeAllUntagged, List.all_eq_true] at h
  unfold setup_single_switch_without_vlan
  dsimp only
  obtain ⟨st2, hst2⟩ := single_switch_ports_ok plane.ports _
    (fun p hp => by simpa using h p hp)
  rw [hst2]
  exact ⟨_, rfl⟩

theorem renamePortsGo_no_panic (ports : List L2Port) :
    ∀ (st : DState) (acc : List L2Port),
      renamePortsGo st acc ports ≠ .error .panicSingleSwitch := by
  induction ports with
  | nil => intro st acc h; cases h
  | cons port rest ih =>
    intro st acc
    cases port with
    | taggedEthernet name pid =>
      simp only [renamePortsGo]
      cases hset : setEthName st pid name with
      | error e =>
        intro h
        unfold setEthName at hset
        split at hset
        · cases hset
        · split at hset
          · cases hset
            cases h
          · cases hset
      | ok st2 => exact ih st2 _
    | untaggedEthernet name pid =>
      simp only [renamePortsGo]
      cases hset : setEthName st pid name with
      | error e =>
        intro h
        unfold setEthName at hset
        split at hset
        · cases hset
        · split at hset
          · cases hset
            cases h
          · cases hset
      | ok st2 => exact ih st2 _
    | vxLan name => intro h; cases h
    | caps => intro h; cases h

theorem setup_l2Go_no_panic (planes : List L2Plane)
    (countSrc : List L2Plane) :
    ∀ (st : DState) (mapped : List (IfCore × MappedPlane))
      (switch : List L2Plane),
      setup_l2Go countSrc st mapped switch planes
        ≠ .error .panicSingleSwitch := by
  induction planes with
  | nil => intro st mapped switch h; cases h
  | cons plane rest ih =>
    intro st mapped switch
    cases hren : renamePortsGo st [] plane.ports with
    | error e =>
      simp only [setup_l2Go, hren]
      intro h
      cases h
      exact renamePortsGo_no_panic plane.ports st [] hren
    | ok r =>
      obtain ⟨st2, ports⟩ := r
      simp only [setup_l2Go, hren]
      cases ports with
      | nil => exact ih st2 _ _
      | cons p0 prest =>
        cases p0 with
        | untaggedEthernet name pid =>
          cases prest with
          | nil =>
            simp only [List.isEmpty_nil, Bool.and_false, Bool.false_eq_true,
              if_false, List.foldl_nil]
            split
            · exact ih _ _ _
            · exact ih _ _ _
          | cons q qrest => exact ih st2 _ _
        | taggedEthernet name pid => exact ih st2 _ _
        | vxLan name => exact ih st2 _ _
        | caps => exact ih st2 _ _

/-- C10: on the `setup_l2` call path the guard (all switch planes' ports
untagged, exactly one plane) makes the `panic!` branches of
`setup_single_switch_without_vlan` unreachable: `setup_l2` never fails
with that panic, and on any all-untagged plane
`setup_single_switch_without_vlan` succeeds. -/
theorem C10_single_switch_panic_unreachable :
    (∀ (st : DState) (setup : L2Setup) (concept : SwitchVlanConcept)
      (mapped : List (IfCore × MappedPlane)),
      setup_l2 st setup concept mapped
        ≠ .error RunErr.panicSingleSwitch) ∧
    (∀ (st : DState) (plane : L2Plane)
      (mapped : List (IfCore × MappedPlane)),
      planeAllUntagged plane = true →
      ∃ r, setup_single_switch_without_vlan st plane mapped = .ok r) := by
  constructor
  · intro st setup concept mapped
    cases hloop : setup_l2Go setup.planes st mapped [] setup.planes with
    | error e =>
      simp only [setup_l2, hloop]
      intro h
      cases h
      exact setup_l2Go_no_panic setup.planes setup.planes st mapped [] hloop
    | ok r =>
      obtain ⟨st1, mapped1, switch_planes⟩ := r
      simp only [setup_l2, hloop]
      by_cases hemp : switch_planes.isEmpty
      · rw [if_pos hemp]
        intro h; cases h
      · rw [if_neg hemp]
        by_cases hall : switch_planes.all planeAllUntagged
        · rw [if_pos hall]
          cases switch_planes with
          | nil => intro h; cases h
          | cons sp srest =>
            cases srest with
            | nil =>
              have hsp : planeAllUntagged sp = true := by
                rw [List.all_eq_true] at hall
                exact hall sp (List.mem_cons_self _ _)
              obtain ⟨r2, hr2⟩ := setup_single_switch_ok st1 sp mapped1 hsp
              dsimp only
              rw [hr2]
              intro h; cases h
            | cons sq sqrest =>
              cases concept
              intro h; cases h
        · rw [if_neg hall]
          cases concept
          intro h; cases h
  · intro st plane mapped h
    exact setup_single_switch_ok st plane mapped h

/-! ### Routed planes bypass the bridge -/

/-- The port name of a plane consisting of exactly one untagged ethernet
port. -/
def routedName (p : L2Plane) : Option String :=
  match p.ports with
  | [L2Port.untaggedEthernet n _] => some n
  | _ => none

/-- The guard of the directly-routed mapping in `setup_l2` (lines
211-223): a single untagged ethernet port used by exactly one plane. -/
def routedQualifiesB (countSrc : List L2Plane) (p : L2Plane) : Bool :=
  match routedName p with
  | some n => portPlaneCount countSrc n == 1
  | none => false

theorem setEthName_fields {st : DState} {pid : PhysicalPortId} {n : String}
    {st2 : DState} (h : setEthName st pid n = .ok st2) :
    st2.bridge = st.bridge ∧ st2.bridge_port = st.bridge_port ∧
    st2.bridge_vlan = st.bridge_vlan := by
  unfold setEthName at h
  split at h
  · cases h; exact ⟨rfl, rfl, rfl⟩
  · split at h
    · cases h
    · cases h; exact ⟨rfl, rfl, rfl⟩

theorem renamePortsGo_ok (ports : List L2Port) :
    ∀ (st : DState) (acc : List L2Port) (st2 : DState) (out : List L2Port),
      renamePortsGo st acc ports = .ok (st2, out) →
      out = acc ++ ports ∧ st2.bridge = st.bridge ∧
      st2.bridge_port = st.bridge_port ∧
      st2.bridge_vlan = st.bridge_vlan := by
  induction ports with
  | nil =>
    intro st acc st2 out h
    simp only [renamePortsGo] at h
    cases h
    exact ⟨(List.append_nil acc).symm, rfl, rfl, rfl⟩
  | cons port rest ih =>
    intro st acc st2 out h
    cases port with
    | taggedEthernet name pid =>
      simp only [renamePortsGo] at h
      cases hset : setEthName st pid name with
      | error e => rw [hset] at h; cases h
      | ok stx =>
        rw [hset] at h
        obtain ⟨ho, h1, h2, h3⟩ := ih stx _ st2 out h
        obtain ⟨g1, g2, g3⟩ := setEthName_fields hset
        refine ⟨?_, by rw [h1, g1], by rw [h2, g2], by rw [h3, g3]⟩
        rw [ho, List.append_assoc]
        rfl
    | untaggedEthernet name pid =>
      simp only [renamePortsGo] at h
      cases hset : setEthName st pid name with
      | error e => rw [hset] at h; cases h
      | ok stx =>
        rw [hset] at h
        obtain ⟨ho, h1, h2, h3⟩ := ih stx _ st2 out h
        obtain ⟨g1, g2, g3⟩ := setEthName_fields hset
        refine ⟨?_, by rw [h1, g1], by rw [h2, g2], by rw [h3, g3]⟩
        rw [ho, List.append_assoc]
        rfl
    | vxLan name => cases h
    | caps => cases h

theorem setup_l2Go_spec (countSrc : List L2Plane) :
    ∀ (planes : List L2Plane) (st : DState)
      (maps : List (IfCore × MappedPlane)) (sw : List L2Plane)
      (st1 : DState) (m1 : List (IfCore × MappedPlane))
      (sw1 : List L2Plane),
      setup_l2Go countSrc st maps sw planes = .ok (st1, m1, sw1) →
      sw1 = sw ++ planes.filter (fun p => !(routedQualifiesB countSrc p)) ∧
      m1 = maps ++ (planes.filter (routedQualifiesB countSrc)).filterMap
        (fun p => (routedName p).map
          (fun n => (p.root_port, MappedPlane.untagged n))) ∧
      st1.bridge = st.bridge ∧ st1.bridge_port = st.bridge_port ∧
      st1.bridge_vlan = st.bridge_vlan := by
  intro planes
  induction planes with
  | nil =>
    intro st maps sw st1 m1 sw1 h
    simp only [setup_l2Go] at h
    cases h
    simp
  | cons plane rest ih =>
    intro st maps sw st1 m1 sw1 h
    cases hren : renamePortsGo st [] plane.ports with
    | error e =>
      simp only [setup_l2Go, hren] at h
      cases h
    | ok r =>
      obtain ⟨st2, ports⟩ := r
      obtain ⟨hout, hb1, hb2, hb3⟩ := renamePortsGo_ok plane.ports st [] st2 ports hren
      simp only [List.nil_append] at hout
      subst hout
      simp only [setup_l2Go, hren] at h
      have hq : routedQualifiesB countSrc plane
          = match routedName plane with
            | some n => portPlaneCount countSrc n == 1
            | none => false := rfl
      cases hports : plane.ports with
      | nil =>
        rw [hports] at h
        obtain ⟨h1, h2, h3, h4, h5⟩ := ih st2 maps (sw ++ [plane]) st1 m1 sw1 h
        have hqf : routedQualifiesB countSrc plane = false := by
          rw [hq]
          unfold routedName
          rw [hports]
        rw [List.filter_cons, List.filter_cons, hqf]
        simp only [Bool.not_false, if_true, Bool.false_eq_true, if_false]
        refine ⟨?_, ?_, by rw [h3, hb1], by rw [h4, hb2], by rw [h5, hb3]⟩
        · rw [h1, List.append_assoc]
          rfl
        · exact h2
      | cons p0 prest =>
        cases p0 with
        | untaggedEthernet name pid =>
          cases prest with
          | nil =>
            rw [hports] at h
            dsimp only at h
            have hrn : routedName plane = some name := by
              unfold routedName
              rw [hports]
            by_cases hc : portPlaneCount countSrc name = 1
            · have hqt : routedQualifiesB countSrc plane = true := by
                rw [hq, hrn]
                simpa using hc
              rw [if_pos hc] at h
              obtain ⟨h1, h2, h3, h4, h5⟩ := ih st2
                (maps ++ [(plane.root_port, MappedPlane.untagged name)])
                sw st1 m1 sw1 h
              rw [List.filter_cons, List.filter_cons, hqt]
              simp only [Bool.not_true, Bool.false_eq_true, if_false, if_true]
              refine ⟨h1, ?_, by rw [h3, hb1], by rw [h4, hb2],
                by rw [h5, hb3]⟩
              rw [h2, List.filterMap_cons, hrn]
              simp [List.append_assoc]
            · have hqf : routedQualifiesB countSrc plane = false := by
                rw [hq, hrn]
                simpa using hc
              rw [if_neg hc] at h
              obtain ⟨h1, h2, h3, h4, h5⟩ := ih st2 maps (sw ++ [plane])
                st1 m1 sw1 h
              rw [List.filter_cons, List.filter_cons, hqf]
              simp only [Bool.not_false, if_true, Bool.false_eq_true, if_false]
              refine ⟨?_, h2, by rw [h3, hb1], by rw [h4, hb2],
                by rw [h5, hb3]⟩
              rw [h1, List.append_assoc]
              rfl
          | cons q qrest =>
            rw [hports] at h
            obtain ⟨h1, h2, h3, h4, h5⟩ := ih st2 maps (sw ++ [plane])
              st1 m1 sw1 h
            have hqf : routedQualifiesB countSrc plane = false := by
              rw [hq]
              unfold routedName
              rw [hports]
            rw [List.filter_cons, List.filter_cons, hqf]
            simp only [Bool.not_false, if_true, Bool.false_eq_true, if_false]
            refine ⟨?_, h2, by rw [h3, hb1], by rw [h4, hb2],
              by rw [h5, hb3]⟩
            rw [h1, List.append_assoc]
            rfl
        | taggedEthernet name pid =>
          rw [hports] at h
          obtain ⟨h1, h2, h3, h4, h5⟩ := ih st2 maps (sw ++ [plane])
            st1 m1 sw1 h
          have hqf : routedQualifiesB countSrc plane = false := by
            rw [hq]
            unfold routedName
            rw [hports]
          rw [List.filter_cons, List.filter_cons, hqf]
          simp only [Bool.not_false, if_true, Bool.false_eq_true, if_false]
          refine ⟨?_, h2, by rw [h3, hb1], by rw [h4, hb2], by rw [h5, hb3]⟩
          rw [h1, List.append_assoc]
          rfl
        | vxLan name =>
          rw [hports] at h
          obtain ⟨h1, h2, h3, h4, h5⟩ := ih st2 maps (sw ++ [plane])
            st1 m1 sw1 h
          have hqf : routedQualifiesB countSrc plane = false := by
            rw [hq]
            unfold routedName
            rw [hports]
          rw [List.filter_cons, List.filter_cons, hqf]
          simp only [Bool.not_false, if_true, Bool.false_eq_true, if_false]
          refine ⟨?_, h2, by rw [h3, hb1], by rw [h4, hb2], by rw [h5, hb3]⟩
          rw [h1, List.append_assoc]
          rfl
        | caps =>
          rw [hports] at h
          obtain ⟨h1, h2, h3, h4, h5⟩ := ih st2 maps (sw ++ [plane])
            st1 m1 sw1 h
          have hqf : routedQualifiesB countSrc plane = false := by
            rw [hq]
            unfold routedName
            rw [hports]
          rw [List.filter_cons, List.filter_cons, hqf]
          simp only [Bool.not_false, if_true, Bool.false_eq_true, if_false]
          refine ⟨?_, h2, by rw [h3, hb1], by rw [h4, hb2], by rw [h5, hb3]⟩
          rw [h1, List.append_assoc]
          rfl

theorem setup_single_switch_mapped {st : DState} {p : L2Plane}
    {mapped : List (IfCore × MappedPlane)}
    {r : DState × List (IfCore × MappedPlane)}
    (h : setup_single_switch_without_vlan st p mapped = .ok r) :
    r.2 = mapped ++ [(p.root_port, MappedPlane.untagged DEFAULT_BRIDGE_NAME)] := by
  unfold setup_single_switch_without_vlan at h
  dsimp only at h
  split at h
  · cases h
  · cases h; rfl

theorem setup_big_bridge_mapped (st : DState) (planes : List L2Plane)
    (mapped : List (IfCore × MappedPlane)) :
    (setup_big_bridge st planes mapped).2
      = mapped ++ planes.map (fun plane =>
          (plane.root_port,
           MappedPlane.tagged DEFAULT_BRIDGE_NAME plane.vlan_id)) := rfl

/-- C8: in `setup_l2`, a plane whose port list is exactly one untagged
ethernet port belonging to no other plane is mapped as a directly-routed
(untagged) interface; the loop contributes no bridge, bridge-port or
bridge-VLAN entries, the switched planes are exactly the non-qualifying
ones (handed to the single switch or the big bridge afterwards), and when
every plane qualifies the bridge tables are untouched. -/
theorem C8_routed_plane_bypass :
    (∀ (countSrc planes : List L2Plane) (st : DState)
      (maps : List (IfCore × MappedPlane)) (sw : List L2Plane)
      (st1 : DState) (m1 : List (IfCore × MappedPlane))
      (sw1 : List L2Plane),
      setup_l2Go countSrc st maps sw planes = .ok (st1, m1, sw1) →
      sw1 = sw ++ planes.filter (fun p => !(routedQualifiesB countSrc p)) ∧
      m1 = maps ++ (planes.filter (routedQualifiesB countSrc)).filterMap
        (fun p => (routedName p).map
          (fun n => (p.root_port, MappedPlane.untagged n))) ∧
      st1.bridge = st.bridge ∧ st1.bridge_port = st.bridge_port ∧
      st1.bridge_vlan = st.bridge_vlan) ∧
    (∀ (st : DState) (setup : L2Setup)
      (maps0 m1 : List (IfCore × MappedPlane)) (st1 : DState),
      setup_l2 st setup .oneBridge maps0 = .ok (st1, m1) →
      (∀ p ∈ setup.planes, routedQualifiesB setup.planes p = true →
        ∀ n, routedName p = some n →
          (p.root_port, MappedPlane.untagged n) ∈ m1) ∧
      (setup.planes.filter (fun p => !(routedQualifiesB setup.planes p)) = [] →
        st1.bridge = st.bridge ∧ st1.bridge_port = st.bridge_port ∧
        st1.bridge_vlan = st.bridge_vlan)) := by
  refine ⟨fun countSrc planes => setup_l2Go_spec countSrc planes, ?_⟩
  intro st setup maps0 m1 st1 h
  cases hloop : setup_l2Go setup.planes st maps0 [] setup.planes with
  | error e =>
    simp only [setup_l2, hloop] at h
    cases h
  | ok r =>
    obtain ⟨stL, mL, swL⟩ := r
    simp only [setup_l2, hloop] at h
    obtain ⟨hsw, hm, hbr, hbp, hbv⟩ :=
      setup_l2Go_spec setup.planes setup.planes st maps0 [] stL mL swL hloop
    rw [List.nil_append] at hsw
    constructor
    · intro p hp hqual n hrn
      have hmem0 : (p.root_port, MappedPlane.untagged n) ∈ mL := by
        rw [hm]
        apply List.mem_append_right
        apply List.mem_filterMap.mpr
        refine ⟨p, List.mem_filter.mpr ⟨hp, hqual⟩, ?_⟩
        rw [hrn]
        rfl
      by_cases hemp : swL.isEmpty
      · rw [if_pos hemp] at h
        cases h
        exact hmem0
      · rw [if_neg hemp] at h
        split at h
        · have hmap := setup_single_switch_mapped h
          dsimp only at hmap
          rw [hmap]
          exact List.mem_append_left _ hmem0
        · have hm1 : m1 = (setup_big_bridge stL swL mL).2 := by
            injection h with h2
            rw [h2]
          rw [hm1, setup_big_bridge_mapped]
          exact List.mem_append_left _ hmem0
    · intro hall
      have hswnil : swL = [] := by rw [hsw, hall]
      subst hswnil
      simp only [List.isEmpty_nil, if_true] at h
      cases h
      exact ⟨hbr, hbp, hbv⟩

def stW8 : DState :=
  { identity := "", ethernet := [("ether1", { name := "", poe_out := none })],
    bridge := [], bridge_port := [], bridge_vlan := [], vlan := [],
    ipv4_address := [], ipv6_address := [], dhcp_client := [],
    dhcp_server := [], dhcp_server_network := [], ipv4_pool := [],
    ospf_instance := [], ospf_area := [], ospf_interface := [],
    vxlan := [], vxlan_vteps := [] }

def coreW8 : IfCore :=
  { id := 1, name := "a", external := some (.ethernet 1),
    tagged_vlans := [], untagged_vlan := none, ips := [],
    use_ospf := false, enable_dhcp_client := false,
    enable_dhcp_server := false, enable_poe := false }

def plW8 : L2Plane :=
  { ports := [L2Port.untaggedEthernet "q" (.ethernet 1)], vlan := none,
    vlan_id := 60000, root_port := coreW8 }

def stW8r : DState :=
  { stW8 with ethernet := [("ether1", { name := "q", poe_out := none })] }

/-- Witness for C8 on a single routed plane: the concrete run maps the
plane directly and leaves the bridge tables empty. -/
theorem C8_routed_plane_bypass_witness :
    setup_l2 stW8 ⟨[plW8]⟩ .oneBridge []
      = .ok (stW8r, [(coreW8, MappedPlane.untagged "q")]) ∧
    (plW8.root_port, MappedPlane.untagged "q")
      ∈ [(coreW8, MappedPlane.untagged "q")] ∧
    stW8r.bridge = stW8.bridge ∧ stW8r.bridge_port = stW8.bridge_port ∧
    stW8r.bridge_vlan = stW8.bridge_vlan := by
  have h := C8_routed_plane_bypass.2 stW8 ⟨[plW8]⟩ []
    [(coreW8, MappedPlane.untagged "q")] stW8r (by rfl)
  exact ⟨by rfl, h.1 plW8 (by decide) (by decide) "q" (by decide),
    h.2 (by decide)⟩

/-! ### The big bridge -/

theorem alGet_nil {κ ν : Type} [DecidableEq κ] (k : κ) :
    alGet ([] : List (κ × ν)) k = none := rfl

theorem alGet_cons {κ ν : Type} [DecidableEq κ] (k0 : κ) (v0 : ν)
    (m : List (κ × ν)) (k : κ) :
    alGet ((k0, v0) :: m) k = if k0 = k then some v0 else alGet m k := by
  by_cases h : k0 = k
  · simp [alGet, List.find?, h]
  · simp [alGet, List.find?, h]

theorem alGet_upsert_self {κ ν : Type} [DecidableEq κ] (k : κ) (f : ν → ν)
    (d : ν) (m : List (κ × ν)) :
    alGet (alUpsert k f d m) k = some (f ((alGet m k).getD d)) := by
  induction m with
  | nil =>
    simp only [alUpsert]
    rw [alGet_cons, if_pos rfl, alGet_nil]
    rfl
  | cons hd tl ih =>
    obtain ⟨k0, v0⟩ := hd
    simp only [alUpsert]
    by_cases h : k0 = k
    · rw [if_pos h, alGet_cons, if_pos h, alGet_cons, if_pos h]
      rfl
    · rw [if_neg h, alGet_cons, if_neg h, alGet_cons, if_neg h, ih]

theorem alGet_upsert_other {κ ν : Type} [DecidableEq κ] {k k2 : κ}
    (f : ν → ν) (d : ν) (m : List (κ × ν)) (h : k2 ≠ k) :
    alGet (alUpsert k f d m) k2 = alGet m k2 := by
  induction m with
  | nil =>
    simp only [alUpsert]
    rw [alGet_cons, if_neg (fun he => h he.symm)]
  | cons hd tl ih =>
    obtain ⟨k0, v0⟩ := hd
    simp only [alUpsert]
    by_cases hk : k0 = k
    · have hne : k0 ≠ k2 := fun he => h (he ▸ hk)
      rw [if_pos hk, alGet_cons, alGet_cons, if_neg hne, if_neg hne]
    · rw [if_neg hk, alGet_cons, alGet_cons, ih]

theorem alUpsert_keys {κ ν : Type} [DecidableEq κ] (k : κ) (f : ν → ν)
    (d : ν) (m : List (κ × ν)) :
    (alUpsert k f d m).map Prod.fst =
      if k ∈ m.map Prod.fst then m.map Prod.fst
      else m.map Prod.fst ++ [k] := by
  induction m with
  | nil => simp [alUpsert]
  | cons hd tl ih =>
    obtain ⟨k0, v0⟩ := hd
    simp only [alUpsert]
    by_cases h : k0 = k
    · subst h
      rw [if_pos (by simp)]
      simp
    · rw [if_neg h]
      simp only [List.map_cons, List.mem_cons]
      rw [ih]
      by_cases hm : k ∈ tl.map Prod.fst
      · rw [if_pos hm, if_pos (Or.inr hm)]
      · rw [if_neg hm, if_neg (by rintro (hc | hc); exact h hc.symm; exact hm hc)]
        simp

theorem alUpsert_keys_nodup {κ ν : Type} [DecidableEq κ] (k : κ) (f : ν → ν)
    (d : ν) {m : List (κ × ν)} (h : (m.map Prod.fst).Nodup) :
    ((alUpsert k f d m).map Prod.fst).Nodup := by
  rw [alUpsert_keys]
  split
  · exact h
  · rename_i hm
    simpa using List.Nodup.append h (by simp) (by simpa using hm)

/-- One step of the `tags_of_port` tally in `setup_big_bridge`. -/
def tagStep (vid : Nat) (m : List (String × (Option Nat × List Nat))) :
    L2Port → List (String × (Option Nat × List Nat))
  | .taggedEthernet name _ =>
    alUpsert name (fun v => (v.1, v.2 ++ [vid])) (none, []) m
  | .untaggedEthernet name _ =>
    alUpsert name (fun v => (some vid, v.2)) (none, []) m
  | .vxLan _ => m
  | .caps => m

/-- One step of the `ports_of_vlan` tally in `setup_big_bridge`. -/
def vlanStep (vid : Nat) (m : List (Nat × (List String × List String))) :
    L2Port → List (Nat × (List String × List String))
  | .taggedEthernet name _ =>
    alUpsert vid (fun v => (v.1, v.2 ++ [name])) ([], []) m
  | .untaggedEthernet name _ =>
    alUpsert vid (fun v => (v.1 ++ [name], v.2)) ([], []) m
  | .vxLan _ => m
  | .caps => m

/-- The `tags_of_port` half of the tally loop in `setup_big_bridge`. -/
def buildTags (planes : List L2Plane)
    (m : List (String × (Option Nat × List Nat))) :
    List (String × (Option Nat × List Nat)) :=
  planes.foldl (fun m pl => pl.ports.foldl (tagStep pl.vlan_id) m) m

/-- The `ports_of_vlan` half of the tally loop in `setup_big_bridge`. -/
def buildVlans (planes : List L2Plane)
    (m : List (Nat × (List String × List String))) :
    List (Nat × (List String × List String)) :=
  planes.foldl (fun m pl => pl.ports.foldl (vlanStep pl.vlan_id) m) m

theorem bigBridgeTally_proj (ms : List (String × (Option Nat × List Nat))
      × List (Nat × (List String × List String))) (plane : L2Plane) :
    bigBridgeTally ms plane
      = (plane.ports.foldl (tagStep plane.vlan_id) ms.1,
         plane.ports.foldl (vlanStep plane.vlan_id) ms.2) := by
  unfold bigBridgeTally
  generalize plane.vlan_id = vid
  generalize plane.ports = ports
  induction ports generalizing ms with
  | nil => rfl
  | cons port prest ihp =>
    cases port <;> simp only [List.foldl_cons] <;> exact ihp _

theorem bigBridgeMaps_proj (planes : List L2Plane) :
    ∀ ms : List (String × (Option Nat × List Nat))
        × List (Nat × (List String × List String)),
      planes.foldl bigBridgeTally ms
        = (buildTags planes ms.1, buildVlans planes ms.2) := by
  induction planes with
  | nil => intro ms; rfl
  | cons plane rest ih =>
    intro ms
    simp only [List.foldl_cons]
    rw [bigBridgeTally_proj, ih]
    rfl

/-- Membership events seen by the `tags_of_port` tally for port name `n`:
`(is_untagged, plane tag)`. -/
def tagEvent (vid : Nat) (n : String) : L2Port → Option (Bool × Nat)
  | .taggedEthernet m _ => if m = n then some (false, vid) else none
  | .untaggedEthernet m _ => if m = n then some (true, vid) else none
  | .vxLan _ => none
  | .caps => none

/-- All membership events at port name `n`, in tally order. -/
def portEvents (planes : List L2Plane) (n : String) : List (Bool × Nat) :=
  planes.flatMap (fun pl => pl.ports.filterMap (tagEvent pl.vlan_id n))

/-- Replay of the tally updates for one port name. -/
def applyEvents (v : Option Nat × List Nat) :
    List (Bool × Nat) → Option Nat × List Nat
  | [] => v
  | (true, vid) :: rest => applyEvents (some vid, v.2) rest
  | (false, vid) :: rest => applyEvents (v.1, v.2 ++ [vid]) rest

/-- The spec-side membership summary of one ethernet port across the
switched planes: its effective untagged tag (last wins) and the list of
tags it is tagged into. -/
def portTagState (planes : List L2Plane) (n : String) : Option Nat × List Nat :=
  applyEvents (none, []) (portEvents planes n)

theorem applyEvents_append (e1 e2 : List (Bool × Nat)) :
    ∀ v, applyEvents v (e1 ++ e2) = applyEvents (applyEvents v e1) e2 := by
  induction e1 with
  | nil => intro v; rfl
  | cons e rest ih =>
    intro v
    obtain ⟨b, vid⟩ := e
    cases b <;> simp only [List.cons_append, applyEvents] <;> exact ih _

theorem tagStep_fold_get (vid : Nat) (n : String) (ports : List L2Port) :
    ∀ m, alGet (ports.foldl (tagStep vid) m) n =
      match ports.filterMap (tagEvent vid n) with
      | [] => alGet m n
      | evs => some (applyEvents ((alGet m n).getD (none, [])) evs) := by
  induction ports with
  | nil => intro m; rfl
  | cons port prest ihp =>
    intro m
    cases port with
    | taggedEthernet pname pid =>
      by_cases hn : pname = n
      · subst hn
        simp only [List.foldl_cons, List.filterMap_cons, tagStep, tagEvent,
          if_pos rfl]
        rw [ihp, alGet_upsert_self]
        cases hevs : prest.filterMap (tagEvent vid pname) with
        | nil => simp [applyEvents]
        | cons e es => simp [applyEvents]
      · simp only [List.foldl_cons, List.filterMap_cons, tagStep, tagEvent,
          if_neg hn]
        rw [ihp, alGet_upsert_other _ _ _ (fun he => hn he.symm)]
    | untaggedEthernet pname pid =>
      by_cases hn : pname = n
      · subst hn
        simp only [List.foldl_cons, List.filterMap_cons, tagStep, tagEvent,
          if_pos rfl]
        rw [ihp, alGet_upsert_self]
        cases hevs : prest.filterMap (tagEvent vid pname) with
        | nil => simp [applyEvents]
        | cons e es => simp [applyEvents]
      · simp only [List.foldl_cons, List.filterMap_cons, tagStep, tagEvent,
          if_neg hn]
        rw [ihp, alGet_upsert_other _ _ _ (fun he => hn he.symm)]
    | vxLan pname =>
      simp only [List.foldl_cons, List.filterMap_cons, tagStep, tagEvent]
      exact ihp m
    | caps =>
      simp only [List.foldl_cons, List.filterMap_cons, tagStep, tagEvent]
      exact ihp m

/-- Value of the `tags_of_port` tally at one port name: untouched when no
event mentions the name, otherwise the replay of its events. -/
theorem buildTags_get (planes : List L2Plane) :
    ∀ (m : List (String × (Option Nat × List Nat))) (n : String),
      alGet (buildTags planes m) n =
        match portEvents planes n with
        | [] => alGet m n
        | evs => some (applyEvents ((alGet m n).getD (none, [])) evs) := by
  induction planes with
  | nil => intro m n; rfl
  | cons plane rest ih =>
    intro m n
    have hpe : portEvents (plane :: rest) n
        = plane.ports.filterMap (tagEvent plane.vlan_id n)
          ++ portEvents rest n := by
      simp [portEvents]
    have hbt : buildTags (plane :: rest) m
        = buildTags rest (plane.ports.foldl (tagStep plane.vlan_id) m) := rfl
    rw [hbt, ih, hpe, tagStep_fold_get]
    cases hev1 : plane.ports.filterMap (tagEvent plane.vlan_id n) with
    | nil => simp
    | cons e es =>
      cases hev2 : portEvents rest n with
      | nil => simp [← applyEvents_append]
      | cons f fs => simp [← applyEvents_append]


theorem alGet_eq_none_iff {κ ν : Type} [DecidableEq κ] (m : List (κ × ν))
    (k : κ) : alGet m k = none ↔ k ∉ m.map Prod.fst := by
  induction m with
  | nil => simp [alGet_nil]
  | cons hd tl ih =>
    obtain ⟨k0, v0⟩ := hd
    rw [alGet_cons]
    by_cases h : k0 = k
    · subst h
      simp
    · simp only [if_neg h, List.map_cons, List.mem_cons]
      rw [ih]
      constructor
      · rintro hn (hc | hc)
        · exact h hc.symm
        · exact hn hc
      · intro hn hc
        exact hn (Or.inr hc)

theorem alGet_mem {κ ν : Type} [DecidableEq κ] {m : List (κ × ν)} {k : κ}
    {v : ν} (h : alGet m k = some v) : (k, v) ∈ m := by
  induction m with
  | nil => simp [alGet_nil] at h
  | cons hd tl ih =>
    obtain ⟨k0, v0⟩ := hd
    rw [alGet_cons] at h
    by_cases hk : k0 = k
    · rw [if_pos hk] at h
      injection h with h
      subst hk
      subst h
      exact List.mem_cons_self _ _
    · rw [if_neg hk] at h
      exact List.mem_cons_of_mem _ (ih h)

theorem mem_alUpsert_keys {κ ν : Type} [DecidableEq κ] (k k2 : κ)
    (f : ν → ν) (d : ν) (m : List (κ × ν)) :
    k2 ∈ (alUpsert k f d m).map Prod.fst ↔
      (k2 ∈ m.map Prod.fst ∨ k2 = k) := by
  rw [alUpsert_keys]
  split
  · rename_i h
    constructor
    · exact Or.inl
    · rintro (hc | hc)
      · exact hc
      · exact hc ▸ h
  · simp

/-- Whether an `L2Port` is a physical ethernet member. -/
def L2Port.isEth : L2Port → Bool
  | .taggedEthernet _ _ => true
  | .untaggedEthernet _ _ => true
  | .vxLan _ => false
  | .caps => false

theorem tagStep_fold_keys_nodup (vid : Nat) (ports : List L2Port) :
    ∀ m : List (String × (Option Nat × List Nat)),
      (m.map Prod.fst).Nodup →
      ((ports.foldl (tagStep vid) m).map Prod.fst).Nodup := by
  induction ports with
  | nil => intro m h; exact h
  | cons port prest ihp =>
    intro m h
    cases port with
    | taggedEthernet name pid => exact ihp _ (alUpsert_keys_nodup _ _ _ h)
    | untaggedEthernet name pid => exact ihp _ (alUpsert_keys_nodup _ _ _ h)
    | vxLan name => exact ihp _ h
    | caps => exact ihp _ h

theorem buildTags_keys_nodup (planes : List L2Plane) :
    ∀ m : List (String × (Option Nat × List Nat)),
      (m.map Prod.fst).Nodup →
      ((buildTags planes m).map Prod.fst).Nodup := by
  induction planes with
  | nil => intro m h; exact h
  | cons plane rest ih =>
    intro m h
    exact ih _ (tagStep_fold_keys_nodup _ _ _ h)

theorem vlanStep_fold_keys_nodup (vid : Nat) (ports : List L2Port) :
    ∀ m : List (Nat × (List String × List String)),
      (m.map Prod.fst).Nodup →
      ((ports.foldl (vlanStep vid) m).map Prod.fst).Nodup := by
  induction ports with
  | nil => intro m h; exact h
  | cons port prest ihp =>
    intro m h
    cases port with
    | taggedEthernet name pid => exact ihp _ (alUpsert_keys_nodup _ _ _ h)
    | untaggedEthernet name pid => exact ihp _ (alUpsert_keys_nodup _ _ _ h)
    | vxLan name => exact ihp _ h
    | caps => exact ihp _ h

theorem buildVlans_keys_nodup (planes : List L2Plane) :
    ∀ m : List (Nat × (List String × List String)),
      (m.map Prod.fst).Nodup →
      ((buildVlans planes m).map Prod.fst).Nodup := by
  induction planes with
  | nil => intro m h; exact h
  | cons plane rest ih =>
    intro m h
    exact ih _ (vlanStep_fold_keys_nodup _ _ _ h)

theorem vlanStep_fold_keys_mem (vid v : Nat) (ports : List L2Port) :
    ∀ m : List (Nat × (List String × List String)),
      v ∈ (ports.foldl (vlanStep vid) m).map Prod.fst ↔
        (v ∈ m.map Prod.fst ∨
          (v = vid ∧ ∃ p ∈ ports, p.isEth = true)) := by
  induction ports with
  | nil => intro m; simp
  | cons port prest ihp =>
    intro m
    rw [List.foldl_cons, ihp]
    simp only [List.mem_cons]
    cases port with
    | taggedEthernet name pid =>
      simp only [vlanStep]
      rw [mem_alUpsert_keys]
      constructor
      · rintro ((hm | hv) | ⟨hv, p, hp, he⟩)
        · exact Or.inl hm
        · exact Or.inr ⟨hv, L2Port.taggedEthernet name pid, Or.inl rfl, rfl⟩
        · exact Or.inr ⟨hv, p, Or.inr hp, he⟩
      · rintro (hm | ⟨hv, p, hp, he⟩)
        · exact Or.inl (Or.inl hm)
        · exact Or.inl (Or.inr hv)
    | untaggedEthernet name pid =>
      simp only [vlanStep]
      rw [mem_alUpsert_keys]
      constructor
      · rintro ((hm | hv) | ⟨hv, p, hp, he⟩)
        · exact Or.inl hm
        · exact Or.inr ⟨hv, L2Port.untaggedEthernet name pid, Or.inl rfl, rfl⟩
        · exact Or.inr ⟨hv, p, Or.inr hp, he⟩
      · rintro (hm | ⟨hv, p, hp, he⟩)
        · exact Or.inl (Or.inl hm)
        · exact Or.inl (Or.inr hv)
    | vxLan name =>
      simp only [vlanStep]
      constructor
      · rintro (hm | ⟨hv, p, hp, he⟩)
        · exact Or.inl hm
        · exact Or.inr ⟨hv, p, Or.inr hp, he⟩
      · rintro (hm | ⟨hv, p, hp | hp, he⟩)
        · exact Or.inl hm
        · subst hp
          exact absurd he (by simp [L2Port.isEth])
        · exact Or.inr ⟨hv, p, hp, he⟩
    | caps =>
      simp only [vlanStep]
      constructor
      · rintro (hm | ⟨hv, p, hp, he⟩)
        · exact Or.inl hm
        · exact Or.inr ⟨hv, p, Or.inr hp, he⟩
      · rintro (hm | ⟨hv, p, hp | hp, he⟩)
        · exact Or.inl hm
        · subst hp
          exact absurd he (by simp [L2Port.isEth])
        · exact Or.inr ⟨hv, p, hp, he⟩

theorem buildVlans_keys_mem (planes : List L2Plane) (v : Nat) :
    ∀ m : List (Nat × (List String × List String)),
      v ∈ (buildVlans planes m).map Prod.fst ↔
        (v ∈ m.map Prod.fst ∨
          ∃ pl ∈ planes, pl.vlan_id = v ∧ ∃ p ∈ pl.ports, p.isEth = true) := by
  induction planes with
  | nil => intro m; simp [buildVlans]
  | cons plane rest ih =>
    intro m
    show v ∈ (buildVlans rest
      (plane.ports.foldl (vlanStep plane.vlan_id) m)).map Prod.fst ↔ _
    rw [ih, vlanStep_fold_keys_mem]
    simp only [List.mem_cons]
    constructor
    · rintro ((hm | ⟨hv, p, hp, he⟩) | ⟨pl, hpl, hv, p, hp, he⟩)
      · exact Or.inl hm
      · exact Or.inr ⟨plane, Or.inl rfl, hv.symm, p, hp, he⟩
      · exact Or.inr ⟨pl, Or.inr hpl, hv, p, hp, he⟩
    · rintro (hm | ⟨pl, hpl | hpl, hv, p, hp, he⟩)
      · exact Or.inl (Or.inl hm)
      · subst hpl
        exact Or.inl (Or.inr ⟨hv.symm, p, hp, he⟩)
      · exact Or.inr ⟨pl, hpl, hv, p, hp, he⟩

/-- The bridge-port configuration derived from one `tags_of_port` entry
(lines 291-305). -/
def bigBridgePortCfg (e : String × (Option Nat × List Nat))
    (bp : BridgePortCfg) : BridgePortCfg :=
  match e.2.1 with
  | some untagged_id =>
    { bp with
      ingress_filtering := true,
      pvid := some untagged_id,
      frame_types := some (if e.2.2.isEmpty then
          VlanFrameTypes.admitOnlyUntaggedAndPriorityTagged
        else VlanFrameTypes.admitAll) }
  | none =>
    { bp with
      ingress_filtering := true,
      frame_types := some VlanFrameTypes.admitOnlyVlanTagged }

/-- The bridge-VLAN table key built from one `ports_of_vlan` entry
(lines 307-315). -/
def mkBV (e : Nat × (List String × List String)) :
    String × List String × List String × List PossibleRangeDash :=
  (DEFAULT_BRIDGE_NAME, strSetOf e.2.2, strSetOf e.2.1,
    [PossibleRangeDash.single e.1])

/-- The bridge-port pass of `setup_big_bridge` over the `tags_of_port`
entries. -/
def bpApply (l : List (String × (Option Nat × List Nat))) (st : DState) :
    DState :=
  l.foldl
    (fun s e =>
      let m := alUpsert (DEFAULT_BRIDGE_NAME, e.1)
        (bigBridgePortCfg e) BridgePortCfg.mkDefault s.bridge_port
      { s with bridge_port := m })
    st

/-- The bridge-VLAN pass of `setup_big_bridge` over the `ports_of_vlan`
entries. -/
def bvApply (l : List (Nat × (List String × List String))) (st : DState) :
    DState :=
  l.foldl
    (fun s e =>
      { s with bridge_vlan := insertIfAbsent (mkBV e) s.bridge_vlan })
    st

theorem setup_big_bridge_decomp (st : DState) (planes : List L2Plane)
    (mapped : List (IfCore × MappedPlane)) :
    setup_big_bridge st planes mapped =
      (bvApply (buildVlans planes [])
        (bpApply (buildTags planes [])
          { st with
              bridge := alUpsert DEFAULT_BRIDGE_NAME
                (fun b =>
                  { b with vlan_filtering := true, protocol_mode := BridgeProtocolMode.mstp })
                BridgeCfg.mkDefault st.bridge }),
       mapped ++ planes.map (fun plane =>
         (plane.root_port,
          MappedPlane.tagged DEFAULT_BRIDGE_NAME plane.vlan_id))) := by
  simp only [setup_big_bridge]
  rw [bigBridgeMaps_proj]
  rfl

theorem bpApply_bridge (l : List (String × (Option Nat × List Nat))) :
    ∀ st : DState, (bpApply l st).bridge = st.bridge := by
  induction l with
  | nil => intro st; rfl
  | cons e rest ih => intro st; exact ih _

theorem bpApply_bridge_vlan (l : List (String × (Option Nat × List Nat))) :
    ∀ st : DState, (bpApply l st).bridge_vlan = st.bridge_vlan := by
  induction l with
  | nil => intro st; rfl
  | cons e rest ih => intro st; exact ih _

theorem bvApply_bridge (l : List (Nat × (List String × List String))) :
    ∀ st : DState, (bvApply l st).bridge = st.bridge := by
  induction l with
  | nil => intro st; rfl
  | cons e rest ih => intro st; exact ih _

theorem bvApply_bridge_port (l : List (Nat × (List String × List String))) :
    ∀ st : DState, (bvApply l st).bridge_port = st.bridge_port := by
  induction l with
  | nil => intro st; rfl
  | cons e rest ih => intro st; exact ih _

theorem bpApply_bridge_port (l : List (String × (Option Nat × List Nat))) :
    ∀ st : DState, (bpApply l st).bridge_port =
      l.foldl
        (fun bp e => alUpsert (DEFAULT_BRIDGE_NAME, e.1)
          (bigBridgePortCfg e) BridgePortCfg.mkDefault bp)
        st.bridge_port := by
  induction l with
  | nil => intro st; rfl
  | cons e rest ih => intro st; exact ih _

theorem bvApply_bridge_vlan (l : List (Nat × (List String × List String))) :
    ∀ st : DState, (bvApply l st).bridge_vlan =
      l.foldl (fun bv e => insertIfAbsent (mkBV e) bv) st.bridge_vlan := by
  induction l with
  | nil => intro st; rfl
  | cons e rest ih => intro st; exact ih _

theorem bpFold_get_other (l : List (String × (Option Nat × List Nat))) :
    ∀ (bp : List ((String × String) × BridgePortCfg)) (n : String),
      n ∉ l.map Prod.fst →
      alGet (l.foldl
        (fun bp e => alUpsert (DEFAULT_BRIDGE_NAME, e.1)
          (bigBridgePortCfg e) BridgePortCfg.mkDefault bp) bp)
        (DEFAULT_BRIDGE_NAME, n)
      = alGet bp (DEFAULT_BRIDGE_NAME, n) := by
  induction l with
  | nil => intro bp n _; rfl
  | cons e rest ih =>
    intro bp n hn
    simp only [List.map_cons, List.mem_cons] at hn
    rw [List.foldl_cons, ih _ _ (fun hc => hn (Or.inr hc)),
      alGet_upsert_other _ _ _
        (fun he => hn (Or.inl (congrArg Prod.snd he)))]

theorem bpFold_get (l : List (String × (Option Nat × List Nat)))
    (hnd : (l.map Prod.fst).Nodup) :
    ∀ e ∈ l, ∀ bp : List ((String × String) × BridgePortCfg),
      alGet bp (DEFAULT_BRIDGE_NAME, e.1) = none →
      alGet (l.foldl
        (fun bp e => alUpsert (DEFAULT_BRIDGE_NAME, e.1)
          (bigBridgePortCfg e) BridgePortCfg.mkDefault bp) bp)
        (DEFAULT_BRIDGE_NAME, e.1)
      = some (bigBridgePortCfg e BridgePortCfg.mkDefault) := by
  induction l with
  | nil => intro e he; cases he
  | cons e0 rest ih =>
    intro e he bp hget
    simp only [List.map_cons, List.nodup_cons] at hnd
    simp only [List.mem_cons] at he
    rw [List.foldl_cons]
    rcases he with he | he
    · subst he
      rw [bpFold_get_other rest _ _ hnd.1, alGet_upsert_self, hget]
      rfl
    · have hne : e.1 ≠ e0.1 := by
        intro hc
        exact hnd.1 (hc ▸ List.mem_map_of_mem Prod.fst he)
      refine ih hnd.2 e he _ ?_
      rw [alGet_upsert_other _ _ _
        (fun hc => hne (congrArg Prod.snd hc)), hget]

theorem mkBV_fst_inj {e e2 : Nat × (List String × List String)}
    (h : mkBV e = mkBV e2) : e.1 = e2.1 := by
  have h4 := congrArg (fun q => q.2.2.2) h
  simp only [mkBV] at h4
  injection h4 with h4 _
  injection h4

theorem bvFold_eq (l : List (Nat × (List String × List String)))
    (hnd : (l.map Prod.fst).Nodup) :
    ∀ init : List (String × List String × List String ×
        List PossibleRangeDash),
      (∀ e ∈ l, mkBV e ∉ init) →
      l.foldl (fun bv e => insertIfAbsent (mkBV e) bv) init
        = init ++ l.map mkBV := by
  induction l with
  | nil => intro init _; simp
  | cons e0 rest ih =>
    intro init habs
    simp only [List.map_cons, List.nodup_cons] at hnd
    rw [List.foldl_cons]
    have h0 : insertIfAbsent (mkBV e0) init = init ++ [mkBV e0] := by
      rw [insertIfAbsent, if_neg (habs e0 (List.mem_cons_self _ _))]
    rw [h0, ih hnd.2]
    · simp
    · intro e he hmem
      rcases List.mem_append.mp hmem with hc | hc
      · exact habs e (List.mem_cons_of_mem _ he) hc
      · simp only [List.mem_singleton] at hc
        exact hnd.1 ((mkBV_fst_inj hc) ▸ List.mem_map_of_mem Prod.fst he)

def stW9 : DState :=
  { identity := "", ethernet := [], bridge := [], bridge_port := [],
    bridge_vlan := [], vlan := [], ipv4_address := [], ipv6_address := [],
    dhcp_client := [], dhcp_server := [], dhcp_server_network := [],
    ipv4_pool := [], ospf_instance := [], ospf_area := [],
    ospf_interface := [], vxlan := [], vxlan_vteps := [] }

def coreW9 (i : Nat) (n : String) : IfCore :=
  { id := i, name := n, external := some (.ethernet i),
    tagged_vlans := [], untagged_vlan := none, ips := [],
    use_ospf := false, enable_dhcp_client := false,
    enable_dhcp_server := false, enable_poe := false }

/-- Scenario B: 3 VLANs, 3 ports, each port tagged to one VLAN. -/
def planesW9 : List L2Plane :=
  [{ ports := [.taggedEthernet "e1" (.ethernet 1)], vlan := none,
     vlan_id := 100, root_port := coreW9 1 "e1" },
   { ports := [.taggedEthernet "e2" (.ethernet 2)], vlan := none,
     vlan_id := 200, root_port := coreW9 2 "e2" },
   { ports := [.taggedEthernet "e3" (.ethernet 3)], vlan := none,
     vlan_id := 300, root_port := coreW9 3 "e3" }]

/-- C9: on a pristine target state, `setup_big_bridge` creates exactly one
VLAN-filtering bridge named "switch" (MSTP); the bridge-VLAN table holds
pairwise-distinct tag singletons, one per distinct plane tag with at least
one ethernet member port; and every port name mentioned by an ethernet
membership gets one bridge-port entry whose frame types and PVID come from
its membership summary: only tagged memberships give
admit-only-vlan-tagged, an untagged membership and no tagged ones gives
admit-only-untagged-and-priority-tagged with PVID the untagged tag, and
both kinds give admit-all with PVID likewise set. In particular scenario B
(3 VLANs, 3 ports, each tagged to one VLAN) yields one VLAN-filtering
bridge, 3 bridge-VLAN entries, and admit-only-vlan-tagged on all 3
ports. -/
theorem C9_big_bridge_entries (st : DState) (planes : List L2Plane)
    (mapped : List (IfCore × MappedPlane))
    (hb : st.bridge = []) (hbp : st.bridge_port = [])
    (hbv : st.bridge_vlan = []) :
    ((setup_big_bridge st planes mapped).1.bridge
        = [(DEFAULT_BRIDGE_NAME,
            { vlan_filtering := true, ingress_filtering := none,
              protocol_mode := BridgeProtocolMode.mstp })]
    ∧ ((setup_big_bridge st planes mapped).1.bridge_vlan.map
        (fun e => e.2.2.2)).Nodup
    ∧ (∀ v : Nat,
        [PossibleRangeDash.single v]
            ∈ (setup_big_bridge st planes mapped).1.bridge_vlan.map
              (fun e => e.2.2.2) ↔
          ∃ pl ∈ planes, pl.vlan_id = v ∧ ∃ p ∈ pl.ports, p.isEth = true)
    ∧ (∀ n : String, portEvents planes n ≠ [] →
        ∃ bp, alGet (setup_big_bridge st planes mapped).1.bridge_port
            (DEFAULT_BRIDGE_NAME, n) = some bp ∧
          bp.ingress_filtering = true ∧
          (match portTagState planes n with
           | (none, _) =>
             bp.frame_types = some VlanFrameTypes.admitOnlyVlanTagged
               ∧ bp.pvid = none
           | (some u, []) =>
             bp.frame_types
                 = some VlanFrameTypes.admitOnlyUntaggedAndPriorityTagged
               ∧ bp.pvid = some u
           | (some u, _ :: _) =>
             bp.frame_types = some VlanFrameTypes.admitAll
               ∧ bp.pvid = some u)))
    ∧ ((setup_big_bridge stW9 planesW9 []).1.bridge.length = 1
    ∧ ((setup_big_bridge stW9 planesW9 []).1.bridge.all
        (fun b => b.2.vlan_filtering)) = true
    ∧ (setup_big_bridge stW9 planesW9 []).1.bridge_vlan.length = 3
    ∧ (setup_big_bridge stW9 planesW9 []).1.bridge_port.length = 3
    ∧ (∀ e ∈ (setup_big_bridge stW9 planesW9 []).1.bridge_port,
        e.2.frame_types = some VlanFrameTypes.admitOnlyVlanTagged)) := by
  have hinj : Function.Injective
      (fun v : Nat => [PossibleRangeDash.single v]) := by
    intro a b hab
    injection hab with h1 _
    injection h1
  have hbvr : (setup_big_bridge st planes mapped).1.bridge_vlan
      = (buildVlans planes []).map mkBV := by
    rw [setup_big_bridge_decomp, bvApply_bridge_vlan, bpApply_bridge_vlan]
    dsimp only
    rw [hbv, bvFold_eq _ (buildVlans_keys_nodup planes [] (by simp)) []
      (by simp)]
    simp
  have hmapeq : ((buildVlans planes []).map mkBV).map (fun e => e.2.2.2)
      = ((buildVlans planes []).map Prod.fst).map
          (fun v => [PossibleRangeDash.single v]) := by
    rw [List.map_map, List.map_map]
    rfl
  refine ⟨⟨?_, ?_, ?_, ?_⟩, ?_⟩
  · rw [setup_big_bridge_decomp, bvApply_bridge, bpApply_bridge]
    dsimp only
    rw [hb]
    rfl
  · rw [hbvr, hmapeq]
    exact List.Nodup.map hinj (buildVlans_keys_nodup planes [] (by simp))
  · intro v
    rw [hbvr, hmapeq, List.mem_map]
    constructor
    · rintro ⟨a, ha, hav⟩
      have hva : a = v := hinj hav
      subst hva
      exact ((buildVlans_keys_mem planes a []).mp ha).resolve_left (by simp)
    · intro hex
      exact ⟨v, (buildVlans_keys_mem planes v []).mpr (Or.inr hex), rfl⟩
  · intro n hev
    have hget1 : alGet (buildTags planes []) n
        = some (portTagState planes n) := by
      rw [buildTags_get]
      cases hevs : portEvents planes n with
      | nil => exact absurd hevs hev
      | cons e es => simp [portTagState, hevs, alGet_nil]
    have hmem := alGet_mem hget1
    have hnd : ((buildTags planes []).map Prod.fst).Nodup :=
      buildTags_keys_nodup planes [] (by simp)
    have hbpr : (setup_big_bridge st planes mapped).1.bridge_port
        = ((buildTags planes []).foldl
            (fun bp e => alUpsert (DEFAULT_BRIDGE_NAME, e.1)
              (bigBridgePortCfg e) BridgePortCfg.mkDefault bp) []) := by
      rw [setup_big_bridge_decomp, bvApply_bridge_port, bpApply_bridge_port]
      dsimp only
      rw [hbp]
    refine ⟨bigBridgePortCfg (n, portTagState planes n)
      BridgePortCfg.mkDefault, ?_, ?_, ?_⟩
    · rw [hbpr]
      exact bpFold_get _ hnd _ hmem [] rfl
    · generalize portTagState planes n = pts
      obtain ⟨u, ts⟩ := pts
      cases u <;> rfl
    · generalize portTagState planes n = pts
      obtain ⟨u, ts⟩ := pts
      cases u with
      | none => exact ⟨rfl, rfl⟩
      | some uv =>
        cases ts with
        | nil => exact ⟨rfl, rfl⟩
        | cons t ts2 => exact ⟨rfl, rfl⟩
  · refine ⟨by rfl, by rfl, by rfl, by rfl, by decide⟩

/-- Witness for C9 on the pristine scenario-B state: the hypotheses hold
by computation and the bridge comes out as the single VLAN-filtering
"switch" bridge. -/
theorem C9_big_bridge_entries_witness :
    stW9.bridge = [] ∧ stW9.bridge_port = [] ∧ stW9.bridge_vlan = [] ∧
    (setup_big_bridge stW9 planesW9 []).1.bridge
      = [(DEFAULT_BRIDGE_NAME,
          { vlan_filtering := true, ingress_filtering := none,
            protocol_mode := BridgeProtocolMode.mstp })] :=
  ⟨rfl, rfl, rfl,
    (C9_big_bridge_entries stW9 planesW9 [] rfl rfl rfl).1.1⟩

/-! ## C1: the dropped addressing `Result` in `generate_from` -/

def ipAddrW1 : IpAddressM := { net := some (.v4 172 24), pfx := none }

/-- An interface requesting a DHCP server on an address without prefix
bookkeeping. -/
def coreW1 : IfCore :=
  { id := 1, name := "a", external := some (.ethernet 1),
    tagged_vlans := [], untagged_vlan := none, ips := [ipAddrW1],
    use_ospf := false, enable_dhcp_client := false,
    enable_dhcp_server := true, enable_poe := false }

def deviceW1 : DeviceM :=
  { name := "d", interfaces := [{ core := coreW1, bridge := none }],
    loopback_ip := none, primary_ip_v4 := none, wlan_ap_of := none }

def stW1 : DState :=
  { identity := "", ethernet := [("ether1", { name := "", poe_out := none })],
    bridge := [], bridge_port := [], bridge_vlan := [], vlan := [],
    ipv4_address := [], ipv6_address := [], dhcp_client := [],
    dhcp_server := [], dhcp_server_network := [], ipv4_pool := [],
    ospf_instance := [], ospf_area := [], ospf_interface := [],
    vxlan := [], vxlan_vteps := [] }

def genW1 : InterfaceM → String := fun i => i.core.name

/-- The state after `setup_l2` on the run of `generate_from` over
`deviceW1`. -/
def stL2W1 : DState :=
  { stW1 with
      identity := "d",
      ethernet := [("ether1", { name := "a", poe_out := none })] }

def mappedW1 : List (IfCore × MappedPlane) :=
  [(coreW1, MappedPlane.untagged "a")]

/-- The state right before the `setup_ip_addresses` call of
`generate_from` (after the PoE pass). -/
def stMidW1 : DState :=
  { stW1 with
      identity := "d",
      ethernet := [("ether1", { name := "a", poe_out := some PoeOut.off })] }

/-- C1 (refuted): on `deviceW1` — one mapped plane whose interface
requests a DHCP server on an address with no associated prefix — the
addressing pass reports `MissingPrefixOnIpAddress`, but `generate_from`
drops that `Result` (ros/mod.rs line 419) and returns `Ok` carrying
exactly the partial state the failed pass left behind (the address
assignment is present in the output). -/
theorem C1_generate_from_drops_ip_error :
    setup_l2 (set_identity stW1 "d") (L2Setup.new deviceW1 genW1)
        SwitchVlanConcept.oneBridge [] = .ok (stL2W1, mappedW1)
    ∧ poeLoop stL2W1 deviceW1.interfaces = .ok stMidW1
    ∧ (setup_ip_addresses stMidW1 mappedW1).2
        = some (SetupError.missingPrefixOnIpAddress (IpNetM.v4 172 24))
    ∧ generate_from stW1 deviceW1 genW1 (fun s => s)
        = .ok (setup_ip_addresses stMidW1 mappedW1).1
    ∧ alGet (setup_ip_addresses stMidW1 mappedW1).1.ipv4_address (172, 24)
        = some { interface := "a" } := by
  refine ⟨?_, ?_, ?_, ?_, ?_⟩ <;> rfl

/-- Witness for C10 at a concrete all-untagged plane. -/
theorem C10_single_switch_panic_unreachable_witness :
    planeAllUntagged
      { ports := [L2Port.untaggedEthernet "a" (.ethernet 1)], vlan := none,
        vlan_id := 60000,
        root_port :=
          { id := 1, name := "a", external := some (.ethernet 1),
            tagged_vlans := [], untagged_vlan := none, ips := [],
            use_ospf := false, enable_dhcp_client := false,
            enable_dhcp_server := false, enable_poe := false } } = true ∧
    ∃ r, setup_single_switch_without_vlan
      { identity := "", ethernet := [], bridge := [], bridge_port := [],
        bridge_vlan := [], vlan := [], ipv4_address := [],
        ipv6_address := [], dhcp_client := [], dhcp_server := [],
        dhcp_server_network := [], ipv4_pool := [], ospf_instance := [],
        ospf_area := [], ospf_interface := [], vxlan := [],
        vxlan_vteps := [] }
      { ports := [L2Port.untaggedEthernet "a" (.ethernet 1)], vlan := none,
        vlan_id := 60000,
        root_port :=
          { id := 1, name := "a", external := some (.ethernet 1),
            tagged_vlans := [], untagged_vlan := none, ips := [],
            use_ospf := false, enable_dhcp_client := false,
            enable_dhcp_server := false, enable_poe := false } } []
      = .ok r :=
  ⟨by decide,
   C10_single_switch_panic_unreachable.2 _ _ [] (by decide)⟩

/-! ## The cable walk (src/backend/src/topology/access/cable.rs) -/

/-- `CablePort`: an interface, front-port or rear-port id. -/
inductive CPort
  | iface (id : Nat)
  | front (id : Nat)
  | rear (id : Nat)
  deriving DecidableEq, Repr

/-- One cable: its two termination port lists (`Cable.port_a` /
`Cable.port_b`). -/
structure CableM where
  port_a : List CPort
  port_b : List CPort
  deriving DecidableEq, Repr

/-- The cabling topology: cables by id, each port's attached cable (the
`cable` field of the Interface/FrontPort/RearPort data), and the
passthrough links `FrontPort::rear_port` / `RearPort::front_port`. -/
structure TopoM where
  cables : List (Nat × CableM)
  cableOf : List (CPort × Nat)
  rearOf : List (Nat × Nat)
  frontOf : List (Nat × Nat)
  deriving DecidableEq, Repr

/-- `CableConnection`: near and far ends over one cable. -/
structure CableConnectionM where
  near : CPort
  far : CPort
  cable : Nat
  deriving DecidableEq, Repr

/-- `CablePath`. -/
structure CablePathM where
  start_port : CPort
  cable_segments : List CableConnectionM
  end_port : Option CPort
  deriving DecidableEq, Repr

/-- `CablePath::far_port` (connections.rs lines 36-44). -/
def CablePathM.far_port (p : CablePathM) : CPort :=
  match p.end_port with
  | some e => e
  | none =>
    match p.cable_segments.getLast? with
    | some seg => seg.far
    | none => p.start_port

/-- `CableAccess::connections_from_port` (cable.rs lines 79-106): the
far ends are `port_b` when the port terminates on side a, chained with
`port_a` when it terminates on side b. -/
def connections_from_port (t : TopoM) (cid : Nat) (port : CPort) :
    List CableConnectionM :=
  match alGet t.cables cid with
  | none => []
  | some cable =>
    ((if port ∈ cable.port_a then cable.port_b else []) ++
     (if port ∈ cable.port_b then cable.port_a else [])).map
      (fun far => { near := port, far := far, cable := cid })

/-- `CablePortAccess::next_device_port_id` (cable.rs lines 139-145). -/
def next_device_port_id (t : TopoM) : CPort → Option CPort
  | .iface _ => none
  | .front i => (alGet t.rearOf i).map CPort.rear
  | .rear i => (alGet t.frontOf i).map CPort.front

/-- `CablePortAccess::attached_cable_segments` (cable.rs lines
146-154). -/
def attached_cable_segments (t : TopoM) (port : CPort) :
    List CableConnectionM :=
  match alGet t.cableOf port with
  | none => []
  | some cid => connections_from_port t cid port

/-- `append_cable_segments` / `append_cable_segment` (cable.rs lines
155-183), unrolled to the list of emitted `(chain, end_port)` callbacks.
The source recursion is unbounded (it cannot terminate on a cyclic plug
graph); `fuel` bounds the recursion depth and does not affect any run
that finishes within it. -/
def appendSegs (t : TopoM) :
    Nat → CPort → List CableConnectionM →
    List (List CableConnectionM × Option CPort)
  | 0, _, _ => []
  | fuel + 1, self, parent_chain =>
    let segs := attached_cable_segments t self
    if segs.isEmpty then [(parent_chain, some self)]
    else
      segs.flatMap (fun conn =>
        match next_device_port_id t conn.far with
        | some next_port =>
          appendSegs t fuel next_port (parent_chain ++ [conn])
        | none => [(parent_chain ++ [conn], none)])

/-- `walk_cable` (cable.rs lines 184-197): emit every path whose
`end_port` differs from the start port itself. -/
def walk_cable (t : TopoM) (fuel : Nat) (self : CPort) : List CablePathM :=
  (appendSegs t fuel self []).filterMap (fun r =>
    if r.2 = some self then none
    else some { start_port := self, cable_segments := r.1, end_port := r.2 })

/-- The looping topology: cable 1 fans out from the start interface to a
passthrough front port and a passthrough rear port; cable 2 joins the two
passthrough modules, so every chain of segments leads back to the start
interface. -/
def topoW2 : TopoM :=
  { cables :=
      [(1, { port_a := [CPort.iface 1],
             port_b := [CPort.front 1, CPort.rear 2] }),
       (2, { port_a := [CPort.rear 1], port_b := [CPort.front 2] })],
    cableOf :=
      [(CPort.iface 1, 1), (CPort.front 1, 1), (CPort.rear 2, 1),
       (CPort.rear 1, 2), (CPort.front 2, 2)],
    rearOf := [(1, 1), (2, 2)],
    frontOf := [(1, 1), (2, 2)] }

/-- The first path `walk_cable` reports on `topoW2` from `iface 1`: it
loops back through both passthroughs, ends with `end_port = none`, and
its `far_port()` is the start port. -/
def pW2 : CablePathM :=
  { start_port := CPort.iface 1,
    cable_segments :=
      [{ near := CPort.iface 1, far := CPort.front 1, cable := 1 },
       { near := CPort.rear 1, far := CPort.front 2, cable := 2 },
       { near := CPort.rear 2, far := CPort.iface 1, cable := 1 }],
    end_port := none }

/-- C2 (refuted): on the looping fan-out topology, `walk_cable` from
`iface 1` reports a path whose `far_port()` *is* the start port — the
suppression only filters paths with `end_port == Some(start)`, and a path
wired back to the start ends with `end_port = None` whose last segment's
far end is the start. -/
theorem C2_walk_cable_counterexample :
    ∃ p ∈ walk_cable topoW2 5 (CPort.iface 1),
      p.far_port = CPort.iface 1 := by decide

/-- C2 amended: the only suppression `walk_cable` performs is on
`end_port`: every path passed to the visitor has `end_port ≠ some start`.
(Paths looping back to the start through passthroughs are still
reported, with `end_port = none` and a `far_port()` equal to the
start.) -/
theorem C2_walk_cable_amended (t : TopoM) (fuel : Nat) (start : CPort) :
    ∀ p ∈ walk_cable t fuel start, p.end_port ≠ some start := by
  intro p hp
  simp only [walk_cable, List.mem_filterMap] at hp
  obtain ⟨r, hr, heq⟩ := hp
  by_cases h : r.2 = some start
  · rw [if_pos h] at heq
    cases heq
  · rw [if_neg h] at heq
    injection heq with heq
    subst heq
    exact h

/-- Witness for the amended C2 statement at the concrete looping
topology and reported path. -/
theorem C2_walk_cable_amended_witness :
    pW2 ∈ walk_cable topoW2 5 (CPort.iface 1) ∧
    pW2.end_port ≠ some (CPort.iface 1) :=
  ⟨by decide,
   C2_walk_cable_amended topoW2 5 (CPort.iface 1) pW2 (by decide)⟩

end NetboxProvisioner
